import Mathlib

/-!
Verification of the lock-free freelist object pool of
`include/linux/freelist.h`.

The development is a shallow embedding of the C code.  Memory is modelled
as a heap mapping node addresses (naturals; 0 plays the role of the NULL
pointer for object addresses) to node records.  The 32-bit `atomic_t`
refcount is a natural number taken modulo `2^32`; `REFS_ON_FREELIST` and
`REFS_MASK` are the constants of the source.  All functions are executable
and follow the source line by line; loops whose termination depends on the
environment are given explicit fuel, and a result of `none` at such a loop
means the corresponding C execution does not terminate.

Single atomic steps of `__freelist_pop_slot`'s retry loop are embedded in
`popSlotIter`, which takes the values held by the shared locations at the
three racy atomic instructions as explicit parameters (`refsAtClaim`,
`headAtSwap`, `refsAtDec`); instantiating them with the values recorded in
the state yields the interference-free (sequential) execution used by
`popSlotLoop`.
-/

namespace Freelist

/-- Modulus of the 32-bit `atomic_t` refcount field. -/
def U32 : Nat := 4294967296

/-- Constant `REFS_ON_FREELIST` (0x80000000) of the source. -/
def REFS_ON_FREELIST : Nat := 2147483648

/-- Constant `REFS_MASK` (0x7FFFFFFF) of the source. -/
def REFS_MASK : Nat := 2147483647

/-- Constant `PAGE_SIZE` (4096 on the architectures the header targets). -/
def PAGE_SIZE : Nat := 4096

/-- Embedding of `struct freelist_node`: the intrusive header of every
pooled object, a forward link (`none` models a NULL `next`) and the
refcount. -/
structure FNode where
  next : Option Nat
  refs : Nat
deriving DecidableEq

/-- Memory: node addresses to node contents. -/
def Heap := Nat → FNode

/-- Store a node record at an address. -/
def Heap.set (h : Heap) (a : Nat) (v : FNode) : Heap :=
  fun x => if x = a then v else h x

/-- Store into the `refs` field of the node at address `a`. -/
def Heap.setRefs (h : Heap) (a : Nat) (r : Nat) : Heap :=
  h.set a { h a with refs := r }

/-- Store into the `next` field of the node at address `a`. -/
def Heap.setNext (h : Heap) (a : Nat) (n : Option Nat) : Heap :=
  h.set a { h a with next := n }

/-- The all-zero heap used as the initial memory. -/
def zeroHeap : Heap := fun _ => { next := none, refs := 0 }

/-- State of one `struct freelist_slot` together with the memory: `head`
is the `fs_head` field (`none` models NULL). -/
structure SlotState where
  heap : Heap
  head : Option Nat

/-- Embedding of the retry loop of `__freelist_cas_add` (freelist.h lines
390-405), fueled.  `hd` is the local variable `head`; on a failed
`try_cmpxchg_release` the local is updated to the current `fs_head` (the
semantics of `try_cmpxchg`), the thread releases its reference by adding
`REFS_ON_FREELIST - 1`, and it retries only if the value observed before
that add was exactly 1. -/
def casAddLoop : Nat → SlotState → Nat → Option Nat → SlotState
  | 0, s, _, _ => s
  | fuel+1, s, n, hd =>
    let s1 : SlotState := { s with heap := (s.heap.setNext n hd).setRefs n 1 }
    if s1.head = hd then { s1 with head := some n }
    else
      let r := (s1.heap n).refs
      let s2 : SlotState :=
        { s1 with heap := s1.heap.setRefs n ((r + (REFS_ON_FREELIST - 1)) % U32) }
      if r ≠ 1 then s2 else casAddLoop fuel s2 n s1.head

/-- Embedding of `__freelist_cas_add` (freelist.h lines 374-406).  The
first compare of the loop always succeeds when the state carries no
concurrent interference, so one unit of fuel is exact there. -/
def casAdd (s : SlotState) (n : Nat) : SlotState :=
  casAddLoop 1 s n s.head

/-- Embedding of `__freelist_insert_node` (freelist.h lines 161-167):
refs is set to 1 with release semantics, the node is linked in front of
the current head and becomes the new head. -/
def freelist_insert_node (s : SlotState) (n : Nat) : SlotState :=
  let h1 := s.heap.setRefs n 1
  let h2 := h1.setNext n s.head
  { heap := h2, head := some n }

/-- Embedding of `__freelist_add_slot` (freelist.h lines 409-424), the
push path: `atomic_fetch_add_release(REFS_ON_FREELIST, &node->refs)`; only
the thread that observed 0 performs the physical link via
`__freelist_cas_add`. -/
def freelist_add_slot (s : SlotState) (n : Nat) : SlotState :=
  let r := (s.heap n).refs
  let s1 : SlotState := { s with heap := s.heap.setRefs n ((r + REFS_ON_FREELIST) % U32) }
  if r = 0 then casAdd s1 n else s1

/-- Result of one iteration of the while loop of `__freelist_pop_slot`:
either the loop returns the node `n`, or it continues with the given
value in its local variable `head`. -/
inductive PopIter where
  | got (n : Nat)
  | retry (h : Option Nat)
deriving DecidableEq

/-- Embedding of the tail of the loop body of `__freelist_pop_slot`
(freelist.h lines 459-489), entered once the claim CAS has incremented
the refcount of `hd`.  `headAtSwap` is the value held by `slot->fs_head`
when the `try_cmpxchg_acquire` on it executes, and `refsAtDec` the value
held by `hd->refs` when the `atomic_fetch_add(-1, ...)` executes; in an
interference-free execution these are the values recorded in the state. -/
def popSlotAfterClaim (s : SlotState) (hd : Nat) (headAtSwap : Option Nat)
    (refsAtDec : Nat) : SlotState × PopIter :=
  let nxt := (s.heap hd).next
  if headAtSwap = some hd then
    let s2 : SlotState := { s with head := nxt }
    let s3 : SlotState :=
      { s2 with heap := s2.heap.setRefs hd (((s2.heap hd).refs + (U32 - 2)) % U32) }
    (s3, PopIter.got hd)
  else
    let s2 : SlotState := { s with head := headAtSwap }
    let s3 : SlotState :=
      { s2 with heap := s2.heap.setRefs hd ((refsAtDec + (U32 - 1)) % U32) }
    if refsAtDec = REFS_ON_FREELIST + 1 then (casAdd s3 hd, PopIter.retry headAtSwap)
    else (s3, PopIter.retry headAtSwap)

/-- Embedding of one iteration of the while loop of `__freelist_pop_slot`
(freelist.h lines 450-490).  `hd` is the local variable `head`;
`refsAtClaim` is the value held by `hd->refs` when the
`atomic_try_cmpxchg_acquire` on it executes.  The claim is attempted only
when the count bits `refs & REFS_MASK` of the value just read are nonzero;
on a failed condition or CAS the slot head is re-read and the loop
retries. -/
def popSlotIter (s : SlotState) (hd refsAtClaim : Nat) (headAtSwap : Option Nat)
    (refsAtDec : Nat) : SlotState × PopIter :=
  let refs := (s.heap hd).refs
  if refs % REFS_ON_FREELIST = 0 then (s, PopIter.retry s.head)
  else if refsAtClaim ≠ refs then (s, PopIter.retry s.head)
  else
    popSlotAfterClaim { s with heap := s.heap.setRefs hd ((refs + 1) % U32) }
      hd headAtSwap refsAtDec

/-- Embedding of the while loop of `__freelist_pop_slot`, fueled, in the
interference-free execution: every shared location holds exactly the
value recorded in the state, so `refsAtClaim` is the refcount just read,
`headAtSwap` the recorded slot head and `refsAtDec` the refcount the
claim wrote.  Result `none` models nontermination of the loop, `some
none` the function returning NULL, `some (some n)` the function
returning node `n`. -/
def popSlotLoop : Nat → SlotState → Option Nat → SlotState × Option (Option Nat)
  | 0, s, _ => (s, none)
  | _+1, s, none => (s, some none)
  | fuel+1, s, some hd =>
    let refs := (s.heap hd).refs
    match popSlotIter s hd refs s.head ((refs + 1) % U32) with
    | (s1, PopIter.got n) => (s1, some (some n))
    | (s1, PopIter.retry h1) => popSlotLoop fuel s1 h1

/-- Embedding of `__freelist_pop_slot` (freelist.h lines 445-493). -/
def popSlot (fuel : Nat) (s : SlotState) : SlotState × Option (Option Nat) :=
  popSlotLoop fuel s s.head

/-- Embedding of one entry of the `fh_slots` array together with its
`fh_sz_slots` entry: base address and byte size of the slot allocation,
and the `fs_head` field of the `struct freelist_slot` placed at its
start. -/
structure FSlot where
  addr : Nat
  size : Nat
  fs_head : Option Nat
deriving DecidableEq

/-- Embedding of `struct freelist_head` plus the ambient memory.
`fh_slots = none` models a NULL slot-array pointer, and a `none` entry a
NULL slot pointer (its `fh_sz_slots` entry, never written, stays 0 from
`kzalloc` and is modelled as size 0 when read).  `fh_pool = 0` models a
NULL user-pool pointer.  The `fh_gfp` field is reduced to the one bit the
algorithm reads, recorded in the `gfpAtomic` parameters below. -/
structure FreelistHead where
  fh_objsz : Nat
  fh_nobjs : Nat
  fh_ncpus : Nat
  fh_in_slot : Bool
  fh_vmalloc : Bool
  fh_sz_pool : Nat
  fh_pool : Nat
  fh_slots : Option (List (Option FSlot))
  heap : Heap

/-- Read `fh_slots[i]->fs_head` (NULL array or NULL slot reads as an
empty list; the C code never does this on the paths we verify). -/
def FreelistHead.slotHead (st : FreelistHead) (i : Nat) : Option Nat :=
  match st.fh_slots with
  | none => none
  | some sl =>
    match sl.getD i none with
    | none => none
    | some fs => fs.fs_head

/-- Write `fh_slots[i]->fs_head`. -/
def FreelistHead.setSlotHead (st : FreelistHead) (i : Nat) (h : Option Nat) :
    FreelistHead :=
  match st.fh_slots with
  | none => st
  | some sl =>
    match sl.getD i none with
    | none => st
    | some fs => { st with fh_slots := some (sl.set i (some { fs with fs_head := h })) }

/-- View slot `i` together with the memory as a `SlotState`. -/
def FreelistHead.slotState (st : FreelistHead) (i : Nat) : SlotState :=
  { heap := st.heap, head := st.slotHead i }

/-- Write back a `SlotState` obtained from `slotState` after an operation
on slot `i`. -/
def FreelistHead.putSlot (st : FreelistHead) (i : Nat) (s : SlotState) :
    FreelistHead :=
  { st.setSlotHead i s.head with heap := s.heap }

/-- Macro `ALIGN(x, sizeof(void *))` of the source for 64-bit pointers. -/
def alignPtr (x : Nat) : Nat := ((x + 7) / 8) * 8

/-- Return code of the optional `freelist_init_node_cb` callback at a
node address (`none` models a NULL callback pointer). -/
def objinitRC : Option (Nat → Int) → Nat → Int
  | none, _ => 0
  | some f, a => f a

/-- Model of the byte allocator consumed by `__freelist_init_slots`:
whether the `kzalloc` of the slot-pointer array succeeds, whether the
allocation for slot `i` succeeds, and at which base address it lands. -/
structure Allocator where
  arrayOk : Bool
  ok : Nat → Bool
  base : Nat → Nat

/-- Embedding of the zeroing that `memset(slot, 0, s)` performs on the
object area of a freshly allocated slot: the `n` node headers carved at
`base + 8 + j * objsz` are cleared. -/
def zeroNodes (h : Heap) (base objsz : Nat) : Nat → Heap
  | 0 => h
  | j+1 => (zeroNodes h base objsz j).set (base + 8 + j * objsz) { next := none, refs := 0 }

/-- Embedding of the inner loop of `__freelist_init_slots` (freelist.h
lines 225-235) that initializes and links the pre-allocated nodes of slot
`i`: `k` nodes remain, the next to insert is number `j`. -/
def initSlotObjsLoop (i : Nat) (objinit : Option (Nat → Int)) (base objsz : Nat) :
    Nat → Nat → FreelistHead → FreelistHead × Int
  | 0, _, st => (st, 0)
  | k+1, j, st =>
    let a := base + 8 + j * objsz
    let rc := objinitRC objinit a
    if rc ≠ 0 then (st, rc)
    else
      let st1 := st.putSlot i (freelist_insert_node (st.slotState i) a)
      initSlotObjsLoop i objinit base objsz k (j+1)
        { st1 with fh_nobjs := st1.fh_nobjs + 1 }

/-- Embedding of the outer per-cpu loop of `__freelist_init_slots`
(freelist.h lines 192-236): `k` slots remain, the next is slot `i`. -/
def initSlotsLoop (al : Allocator) (gfpAtomic : Bool) (nobjs objsz : Nat)
    (objinit : Option (Nat → Int)) :
    Nat → Nat → FreelistHead → FreelistHead × Int
  | 0, _, st => (st, 0)
  | k+1, i, st =>
    let cpus := st.fh_ncpus
    let n := nobjs / cpus + (if i < nobjs % cpus then 1 else 0)
    let sz := 8 + objsz * n
    let st0 := if i = 0 then
        { st with fh_vmalloc := ¬ (gfpAtomic ∨ sz < PAGE_SIZE) } else st
    if al.ok i = false then (st0, -12)
    else
      let base := al.base i
      let sl := st0.fh_slots.getD []
      let st1 :=
        { st0 with
          fh_slots := some (sl.set i (some { addr := base, size := sz, fs_head := none })),
          heap := zeroNodes st0.heap base objsz n }
      let r2 :=
        if st1.fh_in_slot then initSlotObjsLoop i objinit base objsz n 0 st1
        else (st1, 0)
      if r2.2 ≠ 0 then r2
      else initSlotsLoop al gfpAtomic nobjs objsz objinit k (i+1) r2.1

/-- Embedding of `__freelist_init_slots` (freelist.h lines 170-239).
Error code `-12` is `-ENOMEM`. -/
def freelist_init_slots (al : Allocator) (gfpAtomic : Bool) (st : FreelistHead)
    (nobjs : Nat) (objinit : Option (Nat → Int)) : FreelistHead × Int :=
  if al.arrayOk = false then (st, -12)
  else
    let st0 := { st with fh_slots := some (List.replicate st.fh_ncpus none) }
    let objsz := alignPtr st.fh_objsz
    let st1 := if objsz ≠ 0 then { st0 with fh_in_slot := true } else st0
    initSlotsLoop al gfpAtomic nobjs objsz objinit st1.fh_ncpus 0 st1

/-- Embedding of `__freelist_fini_slots` (freelist.h lines 242-260): the
backing allocations are released and the slot-array pointer (and the
size array aliasing it) is cleared. -/
def freelist_fini_slots (st : FreelistHead) : FreelistHead :=
  match st.fh_slots with
  | none => st
  | some _ => { st with fh_slots := none }

/-- Embedding of `freelist_init` (freelist.h lines 279-294).  `ncpus`
models `num_possible_cpus()` and `h0` the ambient memory.  Whatever error
`__freelist_init_slots` reports, the caller receives `-ENOMEM`. -/
def freelist_init (ncpus nobjs objsz : Nat) (gfpAtomic : Bool) (al : Allocator)
    (objinit : Option (Nat → Int)) (h0 : Heap) : FreelistHead × Int :=
  let st : FreelistHead :=
    { fh_objsz := objsz, fh_nobjs := 0, fh_ncpus := ncpus,
      fh_in_slot := false, fh_vmalloc := false, fh_sz_pool := 0, fh_pool := 0,
      fh_slots := none, heap := h0 }
  let r := freelist_init_slots al gfpAtomic st nobjs objinit
  if r.2 ≠ 0 then (freelist_fini_slots r.1, -12) else (r.1, 0)

/-- Embedding of `freelist_add_scattered` (freelist.h lines 311-322). -/
def freelist_add_scattered (n : Nat) (st : FreelistHead) : FreelistHead × Int :=
  let cpu := st.fh_nobjs % st.fh_ncpus
  let st1 := st.putSlot cpu (freelist_insert_node (st.slotState cpu) n)
  ({ st1 with fh_nobjs := st1.fh_nobjs + 1 }, 0)

/-- Embedding of the carving loop of `freelist_populate` (freelist.h
lines 352-362).  The loop advances `used` by `objsz > 0` each round, so
fuel `size + 1` never runs out; the `break` on a failing
`freelist_add_scattered` is dead code since that function always returns
0 and is modelled accordingly. -/
def populateLoop (objinit : Option (Nat → Int)) (buf size objsz : Nat) :
    Nat → Nat → FreelistHead → FreelistHead × Nat × Int
  | 0, used, st => (st, used, 0)
  | k+1, used, st =>
    if used + objsz ≤ size then
      let node := buf + used
      let rc := objinitRC objinit node
      if rc ≠ 0 then (st, used, rc)
      else
        let st1 := (freelist_add_scattered node st).1
        populateLoop objinit buf size objsz k (used + objsz) st1
    else (st, used, 0)

/-- Embedding of `freelist_populate` (freelist.h lines 338-372).  Error
code `-22` is `-EINVAL` and `-2` is `-ENOENT`.  The two `WARN_ON_ONCE`
alignment checks only log; they do not change the result and have no
counterpart in the state. -/
def freelist_populate (st : FreelistHead) (buf size objsz : Nat)
    (objinit : Option (Nat → Int)) : FreelistHead × Int :=
  if st.fh_pool ≠ 0 ∨ buf = 0 ∨ objsz = 0 ∨ size < objsz then (st, -22)
  else if st.fh_objsz ≠ 0 ∧ st.fh_objsz ≠ objsz then (st, -22)
  else
    let r := populateLoop objinit buf size objsz (size + 1) 0 st
    if r.2.2 ≠ 0 then (r.1, r.2.2)
    else if r.2.1 = 0 then (r.1, -2)
    else ({ r.1 with fh_pool := buf, fh_sz_pool := size, fh_objsz := objsz }, 0)

/-- Embedding of `freelist_push` (freelist.h lines 438-442); `cpu` models
`raw_smp_processor_id()`. -/
def freelist_push (n : Nat) (st : FreelistHead) (cpu : Nat) : FreelistHead × Int :=
  (st.putSlot cpu (freelist_add_slot (st.slotState cpu) n), 0)

/-- Embedding of the work-stealing scan of `freelist_pop` (freelist.h
lines 512-520): `k` shards remain to try, `cpu` is the one tried now.
Result `none` propagates nontermination of `__freelist_pop_slot`. -/
def popLoop (fuel : Nat) : Nat → Nat → FreelistHead → FreelistHead × Option (Option Nat)
  | 0, _, st => (st, some none)
  | k+1, cpu, st =>
    let r := popSlot fuel (st.slotState cpu)
    let st1 := st.putSlot cpu r.1
    match r.2 with
    | none => (st1, none)
    | some (some n) => (st1, some (some n))
    | some none =>
      let cpu1 := if cpu + 1 ≥ st1.fh_ncpus then 0 else cpu + 1
      popLoop fuel k cpu1 st1

/-- Embedding of `freelist_pop` (freelist.h lines 507-523); `cpu` models
`raw_smp_processor_id()`. -/
def freelist_pop (fuel : Nat) (st : FreelistHead) (cpu : Nat) :
    FreelistHead × Option (Option Nat) :=
  popLoop fuel st.fh_ncpus cpu st

/-- Embedding of `freelist_is_inpool` (freelist.h lines 526-530). -/
def freelist_is_inpool (obj : Nat) (st : FreelistHead) : Bool :=
  decide (obj ≠ 0 ∧ st.fh_pool ≤ obj ∧ obj < st.fh_pool + st.fh_sz_pool)

/-- Embedding of `freelist_is_inslot` (freelist.h lines 533-544).  A NULL
slot pointer is read as address 0 with its never-written `fh_sz_slots`
entry 0. -/
def freelist_is_inslot (obj : Nat) (st : FreelistHead) : Bool :=
  (List.range st.fh_ncpus).any (fun i =>
    match (st.fh_slots.getD []).getD i none with
    | none => decide (obj ≠ 0 ∧ obj < 0)
    | some fs => decide (obj ≠ 0 ∧ fs.addr ≤ obj ∧ obj < fs.addr + fs.size))

/-- One invocation of the release callback of `freelist_fini`: the
object (or whole user buffer) passed, and the `user` and `element`
arguments. -/
structure RelCall where
  obj : Nat
  user : Bool
  elem : Bool
deriving DecidableEq

/-- Embedding of the inner do-while drain of one slot in `freelist_fini`
(freelist.h lines 574-581), fueled by `d`; the emitted release-callback
invocations are collected in order. -/
def finiDrainSlot (fuelPop i : Nat) :
    Nat → FreelistHead → Option (FreelistHead × List RelCall)
  | 0, _ => none
  | d+1, st =>
    let r := popSlot fuelPop (st.slotState i)
    let st1 := st.putSlot i r.1
    match r.2 with
    | none => none
    | some none => some (st1, [])
    | some (some obj) =>
      let user := !(freelist_is_inpool obj st1) && !(freelist_is_inslot obj st1)
      match finiDrainSlot fuelPop i d st1 with
      | none => none
      | some (st2, calls) => some (st2, { obj := obj, user := user, elem := true } :: calls)

/-- Embedding of the per-slot loop of `freelist_fini` (freelist.h lines
570-582); a NULL slot pointer is skipped. -/
def finiLoop (fuelPop d : Nat) :
    Nat → Nat → FreelistHead → Option (FreelistHead × List RelCall)
  | 0, _, st => some (st, [])
  | k+1, i, st =>
    match (st.fh_slots.getD []).getD i none with
    | none => finiLoop fuelPop d k (i+1) st
    | some _ =>
      match finiDrainSlot fuelPop i d st with
      | none => none
      | some (st1, calls) =>
        match finiLoop fuelPop d k (i+1) st1 with
        | none => none
        | some (st2, more) => some (st2, calls ++ more)

/-- Embedding of `freelist_fini` (freelist.h lines 562-591).
`hasRelease` models `release != NULL`; the second component lists the
release-callback invocations in order.  Result `none` models
nontermination of a drain. -/
def freelist_fini (fuelPop d : Nat) (st : FreelistHead) (hasRelease : Bool) :
    Option (FreelistHead × List RelCall) :=
  match st.fh_slots with
  | none => some (st, [])
  | some _ =>
    let r1 := if hasRelease then finiLoop fuelPop d st.fh_ncpus 0 st
      else some (st, [])
    match r1 with
    | none => none
    | some (st1, calls) =>
      let r2 :=
        if st1.fh_pool ≠ 0 ∧ hasRelease then
          ({ st1 with fh_pool := 0, fh_sz_pool := 0 },
           calls ++ [{ obj := st1.fh_pool, user := true, elem := false }])
        else (st1, calls)
      some (freelist_fini_slots r2.1, r2.2)

/-! Basic lemmas about the heap. -/

theorem Heap.set_same (h : Heap) (a : Nat) (v : FNode) : (h.set a v) a = v := by
  simp [Heap.set]

theorem Heap.set_ne (h : Heap) {x a : Nat} (v : FNode) (hx : x ≠ a) :
    (h.set a v) x = h x := by
  simp [Heap.set, hx]

theorem Heap.set_set (h : Heap) (a : Nat) (v w : FNode) :
    (h.set a v).set a w = h.set a w := by
  funext x
  by_cases hx : x = a <;> simp [Heap.set, hx]

@[simp] theorem Heap.setRefs_at (h : Heap) (a r : Nat) :
    (h.setRefs a r) a = { h a with refs := r } := by
  simp [Heap.setRefs, Heap.set_same]

theorem Heap.setRefs_ne (h : Heap) {x a : Nat} (r : Nat) (hx : x ≠ a) :
    (h.setRefs a r) x = h x := by
  simp [Heap.setRefs, Heap.set_ne _ _ hx]

@[simp] theorem Heap.setNext_at (h : Heap) (a : Nat) (nx : Option Nat) :
    (h.setNext a nx) a = { h a with next := nx } := by
  simp [Heap.setNext, Heap.set_same]

theorem Heap.setNext_ne (h : Heap) {x a : Nat} (nx : Option Nat) (hx : x ≠ a) :
    (h.setNext a nx) x = h x := by
  simp [Heap.setNext, Heap.set_ne _ _ hx]

@[simp] theorem Heap.setRefs_setRefs (h : Heap) (a r1 r2 : Nat) :
    (h.setRefs a r1).setRefs a r2 = h.setRefs a r2 := by
  simp [Heap.setRefs, Heap.set_same, Heap.set_set]

/-! Claim C3.  The spec asserts that the claim CAS in pop is conditioned on
the on-list flag being set and the count not being saturated.  The code
conditions on something else: the count bits `refs & REFS_MASK` being
nonzero (`freelist.h` line 453); the flag is not consulted and no
saturation check exists.  The two conditions disagree already on the value
1, which is exactly the refcount every linked node carries after
`__freelist_insert_node` or `__freelist_cas_add` (both store 1). -/

/-- Modelled from the spec ("conditioned on the current refcount's
on-list flag still being set and count not already saturated"): top bit
set, count bits not saturated.  Used only for comparison with the code's
actual condition. -/
def specClaimCond (refs : Nat) : Prop :=
  REFS_ON_FREELIST ≤ refs ∧ refs % REFS_ON_FREELIST ≠ REFS_MASK

instance (refs : Nat) : Decidable (specClaimCond refs) := by
  unfold specClaimCond; infer_instance

/-- Concrete heap holding one node at address 64 that is linked into a
slot, with the refcount value 1 that `__freelist_insert_node` stores. -/
def exHeap : Heap := zeroHeap.set 64 { next := none, refs := 1 }

/-- Concrete slot whose stack holds exactly the node at address 64. -/
def exSlot : SlotState := { heap := exHeap, head := some 64 }

/-- Counterexample to C3: on the freshly inserted node (refcount 1) the
spec's stated condition is false — the on-list flag is clear — yet pop
claims the node and succeeds; the condition the code tests (nonzero count
bits) holds instead. -/
theorem claim3_counterexample :
    (popSlot 1 exSlot).2 = some (some 64) ∧
    (exSlot.heap 64).refs % REFS_ON_FREELIST ≠ 0 ∧
    ¬ specClaimCond ((exSlot.heap 64).refs) := by
  refine ⟨by decide, by decide, by decide⟩

/-- C3 (amended): the claim attempt in `__freelist_pop_slot` is
conditioned on the count bits (`refs & REFS_MASK`) of the refcount just
read being nonzero — the on-list flag is not consulted and there is no
saturation check; when the count bits are zero, or the claim CAS fails
because the refcount changed, the iteration leaves the state unchanged
and retries from the re-read slot head; when the condition holds and the
CAS succeeds, the refcount is incremented by one and the iteration
proceeds to the detach attempt. -/
theorem claim3_pop_claim_condition (s : SlotState) (hd refsAtClaim : Nat)
    (headAtSwap : Option Nat) (refsAtDec : Nat) :
    ((s.heap hd).refs % REFS_ON_FREELIST = 0 →
      popSlotIter s hd refsAtClaim headAtSwap refsAtDec = (s, PopIter.retry s.head)) ∧
    (refsAtClaim ≠ (s.heap hd).refs →
      popSlotIter s hd refsAtClaim headAtSwap refsAtDec = (s, PopIter.retry s.head)) ∧
    ((s.heap hd).refs % REFS_ON_FREELIST ≠ 0 → refsAtClaim = (s.heap hd).refs →
      popSlotIter s hd refsAtClaim headAtSwap refsAtDec =
        popSlotAfterClaim
          { s with heap := s.heap.setRefs hd (((s.heap hd).refs + 1) % U32) }
          hd headAtSwap refsAtDec) := by
  refine ⟨fun h0 => ?_, fun hne => ?_, fun h0 heq => ?_⟩
  · simp [popSlotIter, h0]
  · by_cases h0 : (s.heap hd).refs % REFS_ON_FREELIST = 0 <;>
      simp [popSlotIter, h0, hne]
  · simp [popSlotIter, h0, heq]

/-- Witness for C3 (amended), on the concrete one-node slot: the count
bits of the refcount 1 are nonzero, so the claim CAS runs and the
iteration proceeds to the detach attempt with the refcount raised to 2. -/
theorem claim3_pop_claim_condition_witness :
    popSlotIter exSlot 64 ((exSlot.heap 64).refs) (some 64) 2 =
      popSlotAfterClaim
        { exSlot with heap := exSlot.heap.setRefs 64 (((exSlot.heap 64).refs + 1) % U32) }
        64 (some 64) 2 :=
  (claim3_pop_claim_condition exSlot 64 ((exSlot.heap 64).refs) (some 64) 2).2.2
    (by decide) rfl

/-! Claim C4: behaviour of pop after the claim succeeded, on both sides
of the detach CAS on the slot head. -/

/-- C4: once pop has claimed the node `hd` (refcount CAS succeeded), then:
if the slot head still equals `hd` at the detach CAS, the head is swung to
the node's successor, the refcount is decremented by exactly two (once for
the claim, once for the list's reference) and `hd` is returned; if the
detach CAS fails, the refcount is decremented by exactly one, and exactly
when the value observed before that decrement is `REFS_ON_FREELIST + 1`
(on-list flag plus a single reader), this thread performs the deferred
`__freelist_cas_add`, linking the node back in front of the current slot
head with refcount 1; in either failure case the loop retries from the
re-read head. -/
theorem claim4_pop_detach_or_release (s : SlotState) (hd : Nat)
    (headAtSwap : Option Nat) (refsAtDec : Nat)
    (hcnt : (s.heap hd).refs % REFS_ON_FREELIST ≠ 0) :
    (headAtSwap = some hd →
      popSlotIter s hd ((s.heap hd).refs) headAtSwap refsAtDec =
        ({ heap := s.heap.setRefs hd ((((s.heap hd).refs + 1) % U32 + (U32 - 2)) % U32),
           head := (s.heap hd).next }, PopIter.got hd)) ∧
    (headAtSwap ≠ some hd → refsAtDec ≠ REFS_ON_FREELIST + 1 →
      popSlotIter s hd ((s.heap hd).refs) headAtSwap refsAtDec =
        ({ heap := s.heap.setRefs hd ((refsAtDec + (U32 - 1)) % U32),
           head := headAtSwap }, PopIter.retry headAtSwap)) ∧
    (headAtSwap ≠ some hd → refsAtDec = REFS_ON_FREELIST + 1 →
      popSlotIter s hd ((s.heap hd).refs) headAtSwap refsAtDec =
        ({ heap := ((s.heap.setRefs hd REFS_ON_FREELIST).setNext hd headAtSwap).setRefs hd 1,
           head := some hd }, PopIter.retry headAtSwap)) := by
  refine ⟨fun hsw => ?_, fun hsw hdec => ?_, fun hsw hdec => ?_⟩
  · simp [popSlotIter, hcnt, popSlotAfterClaim, hsw]
  · simp [popSlotIter, hcnt, popSlotAfterClaim, hsw, hdec]
  · subst hdec
    have harith : (REFS_ON_FREELIST + 1 + (U32 - 1)) % U32 = REFS_ON_FREELIST := by decide
    simp [popSlotIter, hcnt, popSlotAfterClaim, hsw, casAdd, casAddLoop, harith,
      Heap.setRefs, Heap.set_set, Heap.set_same]

/-- Witness for C4, on the concrete one-node slot, successful-detach
side: pop returns the node 64, its refcount going 1 → 2 → 0. -/
theorem claim4_pop_detach_or_release_witness :
    popSlotIter exSlot 64 ((exSlot.heap 64).refs) (some 64) 2 =
      ({ heap := exSlot.heap.setRefs 64 ((((exSlot.heap 64).refs + 1) % U32 + (U32 - 2)) % U32),
         head := (exSlot.heap 64).next }, PopIter.got 64) :=
  (claim4_pop_detach_or_release exSlot 64 (some 64) 2 (by decide)).1 rfl

/-! Chains: the list of nodes reachable from a slot head. -/

/-- The nodes reachable from `hd` by following `next` are exactly the
list `l`, ending in NULL. -/
def isChain (h : Heap) : Option Nat → List Nat → Bool
  | hd, [] => hd = none
  | hd, n :: l => (hd = some n) && isChain h ((h n).next) l

theorem isChain_nil (h : Heap) (hd : Option Nat) :
    isChain h hd [] = true ↔ hd = none := by
  simp [isChain]

theorem isChain_cons (h : Heap) (hd : Option Nat) (n : Nat) (l : List Nat) :
    isChain h hd (n :: l) = true ↔ hd = some n ∧ isChain h ((h n).next) l = true := by
  simp [isChain]

theorem isChain_congr {h h' : Heap} : ∀ {hd : Option Nat} {l : List Nat},
    (∀ m ∈ l, h' m = h m) → isChain h' hd l = isChain h hd l := by
  intro hd l
  induction l generalizing hd with
  | nil => intro _; simp [isChain]
  | cons n l ih =>
    intro hag
    have hn : h' n = h n := hag n (by simp)
    simp only [isChain, hn]
    rw [ih (fun m hm => hag m (by simp [hm]))]

theorem isChain_set_outside {h : Heap} {a : Nat} {v : FNode} {hd : Option Nat}
    {l : List Nat} (ha : a ∉ l) :
    isChain (h.set a v) hd l = isChain h hd l :=
  isChain_congr (fun m hm => Heap.set_ne h v (fun e => ha (e ▸ hm)))

/-! Behaviour of `__freelist_pop_slot` on an interference-free slot. -/

theorem popSlot_empty (fuel : Nat) (s : SlotState) (h : s.head = none) :
    popSlot (fuel+1) s = (s, some none) := by
  simp [popSlot, h, popSlotLoop]

/-- Pop on a slot whose head node carries the linked-state refcount 1:
one iteration claims it (refcount 2), detaches it and releases both
references (refcount 0), returning the node. -/
theorem popSlot_pop (fuel : Nat) (s : SlotState) (n : Nat)
    (hh : s.head = some n) (hr : (s.heap n).refs = 1) :
    popSlot (fuel+1) s =
      ({ heap := s.heap.setRefs n 0, head := (s.heap n).next }, some (some n)) := by
  have e1 : ((1 : Nat) + 1) % U32 = 2 := by decide
  have e2 : ((2 : Nat) + (U32 - 2)) % U32 = 0 := by decide
  have e3 : (1 : Nat) % REFS_ON_FREELIST ≠ 0 := by decide
  simp [popSlot, hh, popSlotLoop, popSlotIter, hr, e1, e2, e3, popSlotAfterClaim]

/-! Access lemmas for the slot array of a pool. -/

/-- Validity of the `fh_slots[i]` entry: the array is allocated, `i` is
in range and the slot pointer is non-NULL. -/
def entryOK (st : FreelistHead) (i : Nat) : Bool :=
  match st.fh_slots with
  | none => false
  | some sl => decide (i < sl.length) && (sl.getD i none).isSome

/-- Validity of the whole slot array: allocated, of length `fh_ncpus`,
with every slot pointer non-NULL. -/
def slotsOK (st : FreelistHead) : Bool :=
  match st.fh_slots with
  | none => false
  | some sl =>
    decide (sl.length = st.fh_ncpus) &&
    (List.range st.fh_ncpus).all (fun i => (sl.getD i none).isSome)

theorem slotsOK_entryOK {st : FreelistHead} (h : slotsOK st = true) {i : Nat}
    (hi : i < st.fh_ncpus) : entryOK st i = true := by
  unfold slotsOK at h
  unfold entryOK
  cases hs : st.fh_slots with
  | none => rw [hs] at h; simp at h
  | some sl =>
    rw [hs] at h
    simp only [Bool.and_eq_true, decide_eq_true_eq, List.all_eq_true] at h
    obtain ⟨hlen, hall⟩ := h
    simp only [Bool.and_eq_true, decide_eq_true_eq]
    exact ⟨by omega, hall i (List.mem_range.mpr hi)⟩

/-- Base address and size of the slot allocation `i` (what
`freelist_is_inslot` consults besides the membership test). -/
def slotMeta (st : FreelistHead) (j : Nat) : Option (Nat × Nat) :=
  match (st.fh_slots.getD []).getD j none with
  | none => none
  | some fs => some (fs.addr, fs.size)

theorem putSlot_heap (st : FreelistHead) (i : Nat) (s : SlotState) :
    (st.putSlot i s).heap = s.heap := rfl

theorem setSlotHead_fields (st : FreelistHead) (i : Nat) (h : Option Nat) :
    (st.setSlotHead i h).fh_objsz = st.fh_objsz ∧
    (st.setSlotHead i h).fh_nobjs = st.fh_nobjs ∧
    (st.setSlotHead i h).fh_ncpus = st.fh_ncpus ∧
    (st.setSlotHead i h).fh_pool = st.fh_pool ∧
    (st.setSlotHead i h).fh_sz_pool = st.fh_sz_pool ∧
    (st.setSlotHead i h).heap = st.heap := by
  cases hs : st.fh_slots with
  | none => simp [FreelistHead.setSlotHead, hs]
  | some sl =>
    cases hg : sl.getD i none with
    | none =>
      have hg' : sl[i]?.getD none = none := by
        rw [← List.getD_eq_getElem?_getD]; exact hg
      simp [FreelistHead.setSlotHead, hs, hg']
    | some fs =>
      have hg' : sl[i]?.getD none = some fs := by
        rw [← List.getD_eq_getElem?_getD]; exact hg
      simp [FreelistHead.setSlotHead, hs, hg']

theorem putSlot_fields (st : FreelistHead) (i : Nat) (s : SlotState) :
    (st.putSlot i s).fh_objsz = st.fh_objsz ∧
    (st.putSlot i s).fh_nobjs = st.fh_nobjs ∧
    (st.putSlot i s).fh_ncpus = st.fh_ncpus ∧
    (st.putSlot i s).fh_pool = st.fh_pool ∧
    (st.putSlot i s).fh_sz_pool = st.fh_sz_pool := by
  have h := setSlotHead_fields st i s.head
  exact ⟨h.1, h.2.1, h.2.2.1, h.2.2.2.1, h.2.2.2.2.1⟩

theorem getD_some_lt {sl : List (Option FSlot)} {i : Nat} {fs : FSlot}
    (hg : sl.getD i none = some fs) : i < sl.length := by
  by_contra hlt
  rw [List.getD_eq_default sl none (by omega)] at hg
  exact Option.noConfusion hg

theorem getD_some_getElem? {sl : List (Option FSlot)} {i : Nat} {fs : FSlot}
    (hg : sl.getD i none = some fs) : sl[i]? = some (some fs) := by
  have h1 : sl[i]?.getD none = some fs := by
    rw [← List.getD_eq_getElem?_getD]; exact hg
  cases hq : sl[i]? with
  | none => rw [hq] at h1; exact absurd h1 (by simp)
  | some x => rw [hq] at h1; simp only [Option.getD_some] at h1; rw [h1]

theorem getD_none_getElem? {sl : List (Option FSlot)} {i : Nat}
    (hg : sl.getD i none = none) : sl[i]?.getD none = none := by
  rw [← List.getD_eq_getElem?_getD]; exact hg

theorem list_all_congr {α : Type} {l : List α} {p q : α → Bool}
    (h : ∀ a ∈ l, p a = q a) : l.all p = l.all q := by
  induction l with
  | nil => rfl
  | cons a l ih =>
    simp only [List.all_cons, h a (by simp)]
    rw [ih (fun b hb => h b (by simp [hb]))]

theorem putSlot_slotHead_same (st : FreelistHead) (i : Nat) (s : SlotState)
    (hok : entryOK st i = true) : (st.putSlot i s).slotHead i = s.head := by
  cases hs : st.fh_slots with
  | none => simp [entryOK, hs] at hok
  | some sl =>
    cases hg : sl.getD i none with
    | none =>
      have hg' := getD_none_getElem? hg
      simp [entryOK, hs, List.getD_eq_getElem?_getD, hg'] at hok
    | some fs =>
      have hg' : sl[i]? = some (some fs) := getD_some_getElem? hg
      simp [FreelistHead.putSlot, FreelistHead.setSlotHead, FreelistHead.slotHead, hs,
        List.getD_eq_getElem?_getD, List.getElem?_set_self', hg']

theorem putSlot_slotHead_ne (st : FreelistHead) (i : Nat) (s : SlotState)
    {j : Nat} (hj : j ≠ i) : (st.putSlot i s).slotHead j = st.slotHead j := by
  cases hs : st.fh_slots with
  | none => simp [FreelistHead.putSlot, FreelistHead.setSlotHead, FreelistHead.slotHead, hs]
  | some sl =>
    cases hg : sl.getD i none with
    | none =>
      have hg' := getD_none_getElem? hg
      simp [FreelistHead.putSlot, FreelistHead.setSlotHead, FreelistHead.slotHead, hs,
        List.getD_eq_getElem?_getD, hg']
    | some fs =>
      have hg' : sl[i]? = some (some fs) := getD_some_getElem? hg
      simp [FreelistHead.putSlot, FreelistHead.setSlotHead, FreelistHead.slotHead, hs,
        List.getD_eq_getElem?_getD, hg', List.getElem?_set_ne (fun e => hj e.symm)]

theorem putSlot_slotMeta (st : FreelistHead) (i : Nat) (s : SlotState) (j : Nat) :
    slotMeta (st.putSlot i s) j = slotMeta st j := by
  cases hs : st.fh_slots with
  | none => simp [FreelistHead.putSlot, FreelistHead.setSlotHead, slotMeta, hs]
  | some sl =>
    cases hg : sl.getD i none with
    | none =>
      have hg' := getD_none_getElem? hg
      simp [FreelistHead.putSlot, FreelistHead.setSlotHead, slotMeta, hs,
        List.getD_eq_getElem?_getD, hg']
    | some fs =>
      have hg' : sl[i]? = some (some fs) := getD_some_getElem? hg
      by_cases hj : j = i
      · subst hj
        simp [FreelistHead.putSlot, FreelistHead.setSlotHead, slotMeta, hs,
          List.getD_eq_getElem?_getD, List.getElem?_set_self', hg']
      · simp [FreelistHead.putSlot, FreelistHead.setSlotHead, slotMeta, hs,
          List.getD_eq_getElem?_getD, hg', List.getElem?_set_ne (fun e => hj e.symm)]

theorem putSlot_entryOK (st : FreelistHead) (i : Nat) (s : SlotState) (j : Nat) :
    entryOK (st.putSlot i s) j = entryOK st j := by
  cases hs : st.fh_slots with
  | none => simp [FreelistHead.putSlot, FreelistHead.setSlotHead, entryOK, hs]
  | some sl =>
    cases hg : sl.getD i none with
    | none =>
      have hg' := getD_none_getElem? hg
      simp [FreelistHead.putSlot, FreelistHead.setSlotHead, entryOK, hs,
        List.getD_eq_getElem?_getD, hg']
    | some fs =>
      have hg' : sl[i]? = some (some fs) := getD_some_getElem? hg
      by_cases hj : j = i
      · subst hj
        simp [FreelistHead.putSlot, FreelistHead.setSlotHead, entryOK, hs,
          List.getD_eq_getElem?_getD, List.getElem?_set_self', hg']
      · simp [FreelistHead.putSlot, FreelistHead.setSlotHead, entryOK, hs,
          List.getD_eq_getElem?_getD, hg', List.getElem?_set_ne (fun e => hj e.symm)]

theorem putSlot_slotsOK (st : FreelistHead) (i : Nat) (s : SlotState) :
    slotsOK (st.putSlot i s) = slotsOK st := by
  cases hs : st.fh_slots with
  | none => simp [FreelistHead.putSlot, FreelistHead.setSlotHead, slotsOK, hs]
  | some sl =>
    cases hg : sl.getD i none with
    | none =>
      have hg' := getD_none_getElem? hg
      simp [FreelistHead.putSlot, FreelistHead.setSlotHead, slotsOK, hs,
        List.getD_eq_getElem?_getD, hg']
    | some fs =>
      have hg' : sl[i]? = some (some fs) := getD_some_getElem? hg
      simp only [slotsOK, FreelistHead.putSlot, FreelistHead.setSlotHead, hs,
        List.getD_eq_getElem?_getD, hg', Option.getD_some, List.length_set]
      congr 1
      apply list_all_congr
      intro j _
      by_cases hj : j = i
      · subst hj
        simp [List.getD_eq_getElem?_getD, List.getElem?_set_self', hg']
      · simp [List.getD_eq_getElem?_getD, List.getElem?_set_ne (fun e => hj e.symm)]

/-! Claim C9: single-threaded push-then-pop round trip. -/

/-- Behaviour of `__freelist_add_slot` on a node whose refcount is 0 (a
node held by the caller): the fetch-add observes 0, so this thread
performs the physical `__freelist_cas_add` link, leaving the node at the
front of the slot with refcount 1. -/
theorem freelist_add_slot_free (s : SlotState) (n : Nat)
    (hr : (s.heap n).refs = 0) :
    freelist_add_slot s n =
      { heap := ((s.heap.setRefs n REFS_ON_FREELIST).setNext n s.head).setRefs n 1,
        head := some n } := by
  have e1 : ((0 : Nat) + REFS_ON_FREELIST) % U32 = REFS_ON_FREELIST := by decide
  have e2 : REFS_ON_FREELIST % U32 = REFS_ON_FREELIST := by decide
  simp [freelist_add_slot, hr, e1, e2, casAdd, casAddLoop]

/-- C9: in a single-threaded execution, `freelist_push` of a free node
`n` (refcount 0, as every node handed out by pop has) followed
immediately by `freelist_pop` on the same cpu returns exactly `n`. -/
theorem claim9_push_pop_roundtrip (st : FreelistHead) (n cpu fuel : Nat)
    (hok : entryOK st cpu = true) (hcpu : cpu < st.fh_ncpus)
    (hr : (st.heap n).refs = 0) :
    (freelist_pop (fuel+1) (freelist_push n st cpu).1 cpu).2 = some (some n) := by
  obtain ⟨k, hk⟩ : ∃ k, st.fh_ncpus = k + 1 := ⟨st.fh_ncpus - 1, by omega⟩
  set s1 := freelist_add_slot (st.slotState cpu) n with hs1
  have hadd : s1 =
      { heap := ((st.heap.setRefs n REFS_ON_FREELIST).setNext n (st.slotHead cpu)).setRefs n 1,
        head := some n } :=
    freelist_add_slot_free (st.slotState cpu) n hr
  set st1 := (freelist_push n st cpu).1 with hst1
  have hst1e : st1 = st.putSlot cpu s1 := rfl
  have hhead : st1.slotHead cpu = some n := by
    rw [hst1e, putSlot_slotHead_same st cpu s1 hok, hadd]
  have hheap : st1.heap = s1.heap := rfl
  have hrefs1 : (st1.heap n).refs = 1 := by
    rw [hheap, hadd]
    simp
  have hncpus : st1.fh_ncpus = st.fh_ncpus := (putSlot_fields st cpu s1).2.2.1
  have hpop := popSlot_pop fuel (st1.slotState cpu) n hhead hrefs1
  unfold freelist_pop
  rw [hncpus, hk]
  simp only [popLoop, hpop]

/-- Allocator used by the concrete examples: every allocation succeeds,
slot `i`'s backing lands at address `1000 * (i + 1)`. -/
def exAlloc : Allocator :=
  { arrayOk := true, ok := fun _ => true, base := fun i => 1000 * (i + 1) }

/-- Concrete empty pool with one cpu and no pre-allocated objects. -/
def exPool0 : FreelistHead := (freelist_init 1 0 0 false exAlloc none zeroHeap).1

/-- Witness for C9 on a concrete empty pool and the free node at
address 500. -/
theorem claim9_push_pop_roundtrip_witness :
    (freelist_pop 1 (freelist_push 500 exPool0 0).1 0).2 = some (some 500) :=
  claim9_push_pop_roundtrip exPool0 500 0 0 (by decide) (by decide) (by decide)

/-! Pool invariant of the interference-free executions, and the
behaviour of the work-stealing `freelist_pop` under it. -/

/-- Pool invariant: valid slot array, one chain per slot as listed in
`ls`, all chained nodes pairwise distinct and carrying the linked-state
refcount 1. -/
def poolInv (st : FreelistHead) (ls : List (List Nat)) : Prop :=
  slotsOK st = true ∧ ls.length = st.fh_ncpus ∧
  (∀ i, i < st.fh_ncpus → isChain st.heap (st.slotHead i) (ls.getD i []) = true) ∧
  ls.flatten.Nodup ∧ ∀ n ∈ ls.flatten, (st.heap n).refs = 1

/-- Metadata of a pool untouched by push/pop/drain: counters, sizes, the
user-pool window, slot extents and slot-array validity. -/
def sameMeta (st st' : FreelistHead) : Prop :=
  st'.fh_ncpus = st.fh_ncpus ∧ st'.fh_nobjs = st.fh_nobjs ∧
  st'.fh_pool = st.fh_pool ∧ st'.fh_sz_pool = st.fh_sz_pool ∧
  st'.fh_objsz = st.fh_objsz ∧ (∀ i, slotMeta st' i = slotMeta st i) ∧
  slotsOK st' = slotsOK st

theorem sameMeta_refl (st : FreelistHead) : sameMeta st st :=
  ⟨rfl, rfl, rfl, rfl, rfl, fun _ => rfl, rfl⟩

theorem sameMeta_trans {s1 s2 s3 : FreelistHead} (h1 : sameMeta s1 s2)
    (h2 : sameMeta s2 s3) : sameMeta s1 s3 := by
  obtain ⟨a1, b1, c1, d1, e1, f1, g1⟩ := h1
  obtain ⟨a2, b2, c2, d2, e2, f2, g2⟩ := h2
  exact ⟨a2.trans a1, b2.trans b1, c2.trans c1, d2.trans d1, e2.trans e1,
    fun i => (f2 i).trans (f1 i), g2.trans g1⟩

theorem putSlot_sameMeta (st : FreelistHead) (i : Nat) (s : SlotState) :
    sameMeta st (st.putSlot i s) := by
  obtain ⟨h1, h2, h3, h4, h5⟩ := putSlot_fields st i s
  exact ⟨h3, h2, h4, h5, h1, putSlot_slotMeta st i s, putSlot_slotsOK st i s⟩

/-- One step of the wrap-around of `freelist_pop`, as modular
arithmetic. -/
theorem wrap_step {cpu ncpus : Nat} (h : cpu < ncpus) :
    (if cpu + 1 ≥ ncpus then 0 else cpu + 1) = (cpu + 1) % ncpus := by
  by_cases he : cpu + 1 ≥ ncpus
  · have h2 : cpu + 1 = ncpus := by omega
    simp [he, h2]
  · have h2 : cpu + 1 < ncpus := by omega
    simp [he, Nat.mod_eq_of_lt h2]

theorem wrap_add (cpu t ncpus : Nat) :
    ((cpu + 1) % ncpus + t) % ncpus = (cpu + (t + 1)) % ncpus := by
  rw [Nat.mod_add_mod]
  congr 1
  omega

theorem getD_set_self {α : Type} {ls : List α} {i : Nat} (x d : α)
    (hi : i < ls.length) : (ls.set i x).getD i d = x := by
  rw [List.getD_eq_getElem?_getD, List.getElem?_set_self',
    List.getElem?_eq_getElem hi]
  simp

theorem getD_set_ne' {α : Type} {ls : List α} {i j : Nat} (x d : α)
    (hne : j ≠ i) : (ls.set i x).getD j d = ls.getD j d := by
  rw [List.getD_eq_getElem?_getD, List.getElem?_set_ne (fun e => hne e.symm),
    ← List.getD_eq_getElem?_getD]

theorem getD_mem {α : Type} {ls : List α} {i : Nat} (d : α)
    (hi : i < ls.length) : ls.getD i d ∈ ls := by
  have hgd : ls.getD i d = ls[i] := by
    rw [List.getD_eq_getElem?_getD, List.getElem?_eq_getElem hi]
    rfl
  rw [hgd]
  exact List.getElem_mem hi

theorem mem_flatten_of_getD {ls : List (List Nat)} {i : Nat} {m : Nat}
    (hi : i < ls.length) (hm : m ∈ ls.getD i []) : m ∈ ls.flatten :=
  List.mem_flatten.mpr ⟨ls.getD i [], getD_mem [] hi, hm⟩

/-- Removing the head of the `j`-th chain is, up to permutation, removing
one element from the flattened chain list. -/
theorem flatten_set_perm :
    ∀ (ls : List (List Nat)) (j : Nat) (n : Nat) (t : List Nat),
    j < ls.length → ls.getD j [] = n :: t →
    ls.flatten.Perm (n :: (ls.set j t).flatten) := by
  intro ls
  induction ls with
  | nil => intro j n t hj _; simp at hj
  | cons a ls ih =>
    intro j n t hj hg
    cases j with
    | zero =>
      rw [List.getD_cons_zero] at hg
      subst hg
      simp [List.flatten_cons]
    | succ j =>
      rw [List.getD_cons_succ] at hg
      have hperm := ih j n t (by simpa using hj) hg
      simp only [List.set_cons_succ, List.flatten_cons]
      exact (hperm.append_left a).trans List.perm_middle

/-- Under the invariant an empty slot head is the same as an empty
chain. -/
theorem poolInv_head_none_iff {st : FreelistHead} {ls : List (List Nat)}
    (hinv : poolInv st ls) {i : Nat} (hi : i < st.fh_ncpus) :
    st.slotHead i = none ↔ ls.getD i [] = [] := by
  have hch := hinv.2.2.1 i hi
  cases hl : ls.getD i [] with
  | nil =>
    rw [hl] at hch
    simp only [isChain] at hch
    simpa using hch
  | cons n l =>
    rw [hl] at hch
    rw [isChain_cons] at hch
    rw [hch.1]
    simp

/-- Transport of the invariant along an observable-preserving state
change. -/
theorem poolInv_transport {st st' : FreelistHead} {ls : List (List Nat)}
    (hinv : poolInv st ls) (hso : slotsOK st' = true)
    (hn : st'.fh_ncpus = st.fh_ncpus)
    (hh : ∀ i, i < st.fh_ncpus → st'.slotHead i = st.slotHead i)
    (hp : st'.heap = st.heap) : poolInv st' ls := by
  obtain ⟨_, hlen, hch, hnd, hrf⟩ := hinv
  refine ⟨hso, by rw [hn]; exact hlen, ?_, hnd, ?_⟩
  · intro i hi
    rw [hn] at hi
    rw [hh i hi, hp]
    exact hch i hi
  · intro m hm
    rw [hp]
    exact hrf m hm

theorem putSlot_self_slotHead (st : FreelistHead) {cpu : Nat}
    (hok : entryOK st cpu = true) :
    ∀ i, (st.putSlot cpu (st.slotState cpu)).slotHead i = st.slotHead i := by
  intro i
  by_cases hic : i = cpu
  · subst hic
    exact putSlot_slotHead_same st i (st.slotState i) hok
  · exact putSlot_slotHead_ne st cpu (st.slotState cpu) hic

theorem popStep_empty {st : FreelistHead} {ls : List (List Nat)} {cpu : Nat}
    (hinv : poolInv st ls) (hcpu : cpu < st.fh_ncpus) :
    poolInv (st.putSlot cpu (st.slotState cpu)) ls :=
  poolInv_transport hinv
    ((putSlot_slotsOK st cpu (st.slotState cpu)).trans hinv.1)
    (putSlot_fields st cpu (st.slotState cpu)).2.2.1
    (fun i _ => putSlot_self_slotHead st (slotsOK_entryOK hinv.1 hcpu) i) rfl

/-- Slot content after a successful interference-free pop of node `n`. -/
def popResultSlot (st : FreelistHead) (n : Nat) : SlotState :=
  { heap := st.heap.setRefs n 0, head := (st.heap n).next }

theorem popSlot_pop' (fuel : Nat) (st : FreelistHead) (cpu n : Nat)
    (hh : st.slotHead cpu = some n) (hr : (st.heap n).refs = 1) :
    popSlot (fuel+1) (st.slotState cpu) = (popResultSlot st n, some (some n)) :=
  popSlot_pop fuel (st.slotState cpu) n hh hr

/-- Effect of popping the head `n` of slot `cpu` on the pool invariant:
the chain list loses its head, everything else is untouched. -/
theorem poolInv_after_pop {st : FreelistHead} {ls : List (List Nat)}
    {cpu n : Nat} {rest : List Nat}
    (hinv : poolInv st ls) (hcpu : cpu < st.fh_ncpus)
    (hch : ls.getD cpu [] = n :: rest) :
    poolInv (st.putSlot cpu (popResultSlot st n)) (ls.set cpu rest) ∧
    st.slotHead cpu = some n ∧ (st.heap n).refs = 1 := by
  obtain ⟨hso, hlen, hcha, hnd, hrf⟩ := hinv
  have hok : entryOK st cpu = true := slotsOK_entryOK hso hcpu
  have hlt : cpu < ls.length := by rw [hlen]; exact hcpu
  have hchain := hcha cpu hcpu
  rw [hch, isChain_cons] at hchain
  have hhead : st.slotHead cpu = some n := hchain.1
  have hmem : n ∈ ls.flatten := mem_flatten_of_getD hlt (by rw [hch]; simp)
  have hrefs : (st.heap n).refs = 1 := hrf n hmem
  have hperm := flatten_set_perm ls cpu n rest hlt hch
  have hnd2 := hperm.nodup hnd
  have hnotin : n ∉ (ls.set cpu rest).flatten := (List.nodup_cons.mp hnd2).1
  have hndtail : (ls.set cpu rest).flatten.Nodup := (List.nodup_cons.mp hnd2).2
  have hheap1 : (st.putSlot cpu (popResultSlot st n)).heap = st.heap.setRefs n 0 := rfl
  refine ⟨⟨?_, ?_, ?_, hndtail, ?_⟩, hhead, hrefs⟩
  · exact (putSlot_slotsOK st cpu (popResultSlot st n)).trans hso
  · rw [(putSlot_fields st cpu (popResultSlot st n)).2.2.1, List.length_set]
    exact hlen
  · intro i hi
    rw [(putSlot_fields st cpu (popResultSlot st n)).2.2.1] at hi
    have hlt2 : i < ls.length := by rw [hlen]; exact hi
    rw [hheap1, Heap.setRefs]
    by_cases hic : i = cpu
    · subst hic
      rw [putSlot_slotHead_same st i (popResultSlot st n) hok]
      rw [getD_set_self rest [] hlt2]
      have hsub : n ∉ rest := fun hmm => hnotin
        (@mem_flatten_of_getD (ls.set i rest) i n
          (by rw [List.length_set]; exact hlt2)
          (by rw [getD_set_self rest [] hlt2]; exact hmm))
      rw [isChain_set_outside hsub]
      exact hchain.2
    · rw [putSlot_slotHead_ne st cpu (popResultSlot st n) hic]
      rw [getD_set_ne' rest [] hic]
      have hsub : n ∉ ls.getD i [] := fun hmm => hnotin
        (@mem_flatten_of_getD (ls.set cpu rest) i n
          (by rw [List.length_set]; exact hlt2)
          (by rw [getD_set_ne' rest [] hic]; exact hmm))
      rw [isChain_set_outside hsub]
      exact hcha i hi
  · intro m hm
    have hne : m ≠ n := fun e => hnotin (e ▸ hm)
    rw [hheap1, Heap.setRefs_ne st.heap 0 hne]
    exact hrf m (hperm.symm.subset (List.mem_cons_of_mem n hm))

/-- The scan of `freelist_pop` over empty slots only: the pop reports
empty and nothing observable changes. -/
theorem popLoop_all_empty (fuel : Nat) :
    ∀ (k cpu : Nat) (st : FreelistHead) (ls : List (List Nat)),
    poolInv st ls → cpu < st.fh_ncpus →
    (∀ t, t < k → st.slotHead ((cpu + t) % st.fh_ncpus) = none) →
    ∃ st', popLoop (fuel+1) k cpu st = (st', some none) ∧ poolInv st' ls ∧
      (∀ i, st'.slotHead i = st.slotHead i) ∧ st'.heap = st.heap ∧
      sameMeta st st' := by
  intro k
  induction k with
  | zero =>
    intro cpu st ls hinv hcpu hemp
    exact ⟨st, rfl, hinv, fun _ => rfl, rfl, sameMeta_refl st⟩
  | succ k ih =>
    intro cpu st ls hinv hcpu hemp
    have hok : entryOK st cpu = true := slotsOK_entryOK hinv.1 hcpu
    have hhead : st.slotHead cpu = none := by
      have h0 := hemp 0 (by omega)
      rwa [Nat.add_zero, Nat.mod_eq_of_lt hcpu] at h0
    have hpop := popSlot_empty fuel (st.slotState cpu) hhead
    have hheads := putSlot_self_slotHead st hok
    have hmeta : sameMeta st (st.putSlot cpu (st.slotState cpu)) :=
      putSlot_sameMeta st cpu (st.slotState cpu)
    have hinv1 := popStep_empty hinv hcpu
    have hncpus : (st.putSlot cpu (st.slotState cpu)).fh_ncpus = st.fh_ncpus :=
      hmeta.1
    have hcpu1 : (cpu + 1) % st.fh_ncpus < st.fh_ncpus := Nat.mod_lt _ (by omega)
    have hemp1 : ∀ t, t < k → (st.putSlot cpu (st.slotState cpu)).slotHead
        (((cpu + 1) % st.fh_ncpus + t) %
          (st.putSlot cpu (st.slotState cpu)).fh_ncpus) = none := by
      intro t ht
      rw [hncpus, hheads, wrap_add]
      exact hemp (t+1) (by omega)
    obtain ⟨st', hrun, hinv', hh', hhp', hm'⟩ :=
      ih ((cpu + 1) % st.fh_ncpus) (st.putSlot cpu (st.slotState cpu)) ls hinv1
        (by rw [hncpus]; exact hcpu1) hemp1
    refine ⟨st', ?_, hinv', fun i => (hh' i).trans (hheads i), hhp',
      sameMeta_trans hmeta hm'⟩
    simp only [popLoop, hpop]
    rw [hncpus, wrap_step hcpu]
    exact hrun

/-- The scan of `freelist_pop` under the invariant: the first nonempty
slot in wrap-around order yields its head node; that node's refcount
drops to 0, its chain loses its head, and the rest of the pool is
untouched. -/
theorem popLoop_found (fuel : Nat) :
    ∀ (k t0 cpu : Nat) (st : FreelistHead) (ls : List (List Nat)) (n : Nat)
    (rest : List Nat),
    poolInv st ls → cpu < st.fh_ncpus → t0 < k →
    (∀ t, t < t0 → st.slotHead ((cpu + t) % st.fh_ncpus) = none) →
    ls.getD ((cpu + t0) % st.fh_ncpus) [] = n :: rest →
    ∃ st', popLoop (fuel+1) k cpu st = (st', some (some n)) ∧
      poolInv st' (ls.set ((cpu + t0) % st.fh_ncpus) rest) ∧
      st'.heap = st.heap.setRefs n 0 ∧
      (∀ i, i ≠ (cpu + t0) % st.fh_ncpus → st'.slotHead i = st.slotHead i) ∧
      st'.slotHead ((cpu + t0) % st.fh_ncpus) = (st.heap n).next ∧
      sameMeta st st' := by
  intro k
  induction k with
  | zero => intro t0 cpu st ls n rest _ _ ht0; omega
  | succ k ih =>
    intro t0 cpu st ls n rest hinv hcpu ht0 hemp hch
    have hok : entryOK st cpu = true := slotsOK_entryOK hinv.1 hcpu
    cases t0 with
    | zero =>
      have hcc : (cpu + 0) % st.fh_ncpus = cpu := by
        rw [Nat.add_zero, Nat.mod_eq_of_lt hcpu]
      rw [hcc] at hch
      simp only [hcc]
      obtain ⟨hinv', hhead, hrefs⟩ := poolInv_after_pop hinv hcpu hch
      have hpop := popSlot_pop' fuel st cpu n hhead hrefs
      refine ⟨st.putSlot cpu (popResultSlot st n), ?_, hinv', rfl,
        fun i hic => putSlot_slotHead_ne st cpu (popResultSlot st n) hic,
        putSlot_slotHead_same st cpu (popResultSlot st n) hok,
        putSlot_sameMeta st cpu (popResultSlot st n)⟩
      simp only [popLoop, hpop]
    | succ t0 =>
      have hhead : st.slotHead cpu = none := by
        have h0 := hemp 0 (by omega)
        rwa [Nat.add_zero, Nat.mod_eq_of_lt hcpu] at h0
      have hpop := popSlot_empty fuel (st.slotState cpu) hhead
      have hheads := putSlot_self_slotHead st hok
      have hmeta : sameMeta st (st.putSlot cpu (st.slotState cpu)) :=
        putSlot_sameMeta st cpu (st.slotState cpu)
      have hinv1 := popStep_empty hinv hcpu
      have hncpus : (st.putSlot cpu (st.slotState cpu)).fh_ncpus = st.fh_ncpus :=
        hmeta.1
      have hcpu1 : (cpu + 1) % st.fh_ncpus < st.fh_ncpus := Nat.mod_lt _ (by omega)
      have hemp1 : ∀ t, t < t0 → (st.putSlot cpu (st.slotState cpu)).slotHead
          (((cpu + 1) % st.fh_ncpus + t) %
            (st.putSlot cpu (st.slotState cpu)).fh_ncpus) = none := by
        intro t ht
        rw [hncpus, hheads, wrap_add]
        exact hemp (t+1) (by omega)
      have hch1 : ls.getD (((cpu + 1) % st.fh_ncpus + t0) %
          (st.putSlot cpu (st.slotState cpu)).fh_ncpus) [] = n :: rest := by
        rw [hncpus, wrap_add]
        exact hch
      obtain ⟨st', hrun, hinv', hhp', hh', hsh', hm'⟩ :=
        ih t0 ((cpu + 1) % st.fh_ncpus) (st.putSlot cpu (st.slotState cpu)) ls n rest
          hinv1 (by rw [hncpus]; exact hcpu1) (by omega) hemp1 hch1
      rw [hncpus, wrap_add] at hinv' hh' hsh'
      refine ⟨st', ?_, hinv', hhp', fun i hi => (hh' i hi).trans (hheads i), hsh',
        sameMeta_trans hmeta hm'⟩
      simp only [popLoop, hpop]
      rw [hncpus, wrap_step hcpu]
      exact hrun


/-! Claim C8: the work-stealing scan of `freelist_pop`. -/

instance poolInvDecidable (st : FreelistHead) (ls : List (List Nat)) :
    Decidable (poolInv st ls) := by
  unfold poolInv
  infer_instance

/-- Every shard index is reached by the wrap-around scan within
`fh_ncpus` steps. -/
theorem scan_reaches {cpu i ncpus : Nat} (hcpu : cpu < ncpus) (hi : i < ncpus) :
    (cpu + (i + ncpus - cpu) % ncpus) % ncpus = i := by
  rw [Nat.add_mod_mod]
  have he : cpu + (i + ncpus - cpu) = i + ncpus := by omega
  rw [he, Nat.add_mod_right, Nat.mod_eq_of_lt hi]

/-- C8: under the pool invariant, `freelist_pop` starting at the caller's
cpu tries the shards in wrap-around order, each at most once: it reports
empty (`some none`, neither blocking — the fuel bound `fuel+1` suffices —
nor erroring) exactly when every one of the `fh_ncpus` shards is empty,
and otherwise returns the head node of the first shard in scan order
`cpu, cpu+1, ...` (wrapping) whose list is nonempty. -/
theorem claim8_pop_scan (st : FreelistHead) (ls : List (List Nat)) (fuel cpu : Nat)
    (hinv : poolInv st ls) (hcpu : cpu < st.fh_ncpus) :
    ((freelist_pop (fuel+1) st cpu).2 = some none ↔
      (∀ i, i < st.fh_ncpus → st.slotHead i = none)) ∧
    (∀ t0 n, t0 < st.fh_ncpus →
      (∀ t, t < t0 → st.slotHead ((cpu + t) % st.fh_ncpus) = none) →
      st.slotHead ((cpu + t0) % st.fh_ncpus) = some n →
      (freelist_pop (fuel+1) st cpu).2 = some (some n)) := by
  have hfound : ∀ t0 n, t0 < st.fh_ncpus →
      (∀ t, t < t0 → st.slotHead ((cpu + t) % st.fh_ncpus) = none) →
      st.slotHead ((cpu + t0) % st.fh_ncpus) = some n →
      (freelist_pop (fuel+1) st cpu).2 = some (some n) := by
    intro t0 n ht0 hemp hhead
    have hj : (cpu + t0) % st.fh_ncpus < st.fh_ncpus := Nat.mod_lt _ (by omega)
    have hch := hinv.2.2.1 _ hj
    cases hl : ls.getD ((cpu + t0) % st.fh_ncpus) [] with
    | nil =>
      rw [hl] at hch
      rw [isChain_nil] at hch
      rw [hch] at hhead
      exact Option.noConfusion hhead
    | cons m tail =>
      rw [hl] at hch
      rw [isChain_cons] at hch
      have hmn : m = n := by
        have := hch.1.symm.trans hhead
        exact Option.some.inj this
      subst hmn
      obtain ⟨st', hrun, _, _, _, _⟩ :=
        popLoop_found fuel st.fh_ncpus t0 cpu st ls m tail hinv hcpu ht0 hemp hl
      unfold freelist_pop
      rw [hrun]
  refine ⟨⟨?_, ?_⟩, hfound⟩
  · intro hres
    by_contra hne
    push_neg at hne
    obtain ⟨i, hi, hne⟩ := hne
    have hP : ∃ t, st.slotHead ((cpu + t) % st.fh_ncpus) ≠ none :=
      ⟨(i + st.fh_ncpus - cpu) % st.fh_ncpus, by rw [scan_reaches hcpu hi]; exact hne⟩
    set t0 := Nat.find hP with ht0def
    have ht0lt : t0 < st.fh_ncpus := by
      have h1 : t0 ≤ (i + st.fh_ncpus - cpu) % st.fh_ncpus :=
        Nat.find_min' hP (by rw [scan_reaches hcpu hi]; exact hne)
      have h2 : (i + st.fh_ncpus - cpu) % st.fh_ncpus < st.fh_ncpus :=
        Nat.mod_lt _ (by omega)
      omega
    have hspec := Nat.find_spec hP
    have hemp : ∀ t, t < t0 → st.slotHead ((cpu + t) % st.fh_ncpus) = none := by
      intro t ht
      have := Nat.find_min hP ht
      by_contra hc
      exact this hc
    cases hh : st.slotHead ((cpu + t0) % st.fh_ncpus) with
    | none => exact hspec hh
    | some n =>
      have := hfound t0 n ht0lt hemp hh
      rw [hres] at this
      exact Option.noConfusion (Option.some.inj this)
  · intro hall
    have hemp : ∀ t, t < st.fh_ncpus →
        st.slotHead ((cpu + t) % st.fh_ncpus) = none := by
      intro t _
      exact hall _ (Nat.mod_lt _ (by omega))
    obtain ⟨st', hrun, _, _, _, _⟩ :=
      popLoop_all_empty fuel st.fh_ncpus cpu st ls hinv hcpu hemp
    unfold freelist_pop
    rw [hrun]

/-- Concrete pool from `freelist_init` with two cpus and zero objects:
both shards exist and are empty. -/
def exPool2 : FreelistHead := (freelist_init 2 0 8 false exAlloc none zeroHeap).1

/-- Witness for C8, instantiating the empty-reporting direction on a
freshly initialized pool with 0 objects: pop reports empty rather than
blocking or erroring. -/
theorem claim8_pop_scan_witness :
    (freelist_pop 1 exPool2 0).2 = some none :=
  ((claim8_pop_scan exPool2 [[], []] 0 0 (by decide) (by decide)).1).mpr (by decide)

/-! Shape of the pool built by `freelist_init`: per-slot object counts,
allocation sizes and carved node addresses. -/

/-- Number of objects slot `i` manages (freelist.h lines 197-199). -/
def slotCount (nobjs cpus i : Nat) : Nat :=
  nobjs / cpus + (if i < nobjs % cpus then 1 else 0)

/-- Byte size of slot `i`'s allocation (freelist.h line 200). -/
def slotSize (objsz n : Nat) : Nat := 8 + objsz * n

/-- Addresses of the nodes carved out of a slot allocation at `base`
(freelist.h line 227). -/
def slotNodes (base objsz n : Nat) : List Nat :=
  (List.range n).map (fun j => base + 8 + j * objsz)

/-- The chain each slot holds after `__freelist_init_slots`: the carved
nodes were pushed in order, so the chain lists them in reverse. -/
def initChains (al : Allocator) (nobjs objsz cpus : Nat) : List (List Nat) :=
  (List.range cpus).map
    (fun i => (slotNodes (al.base i) objsz (slotCount nobjs cpus i)).reverse)

/-- Total number of objects the first `i` slots manage. -/
def sumCounts (nobjs cpus : Nat) : Nat → Nat
  | 0 => 0
  | i+1 => sumCounts nobjs cpus i + slotCount nobjs cpus i

/-- Sanity of the external allocator: slot bases are non-NULL and the
slot allocations are pairwise disjoint. -/
def initSep (al : Allocator) (nobjs objsz cpus : Nat) : Prop :=
  (∀ i, i < cpus → 0 < al.base i) ∧
  (∀ i, i < cpus → ∀ j, j < cpus → i ≠ j →
    al.base i + slotSize objsz (slotCount nobjs cpus i) ≤ al.base j ∨
    al.base j + slotSize objsz (slotCount nobjs cpus j) ≤ al.base i)

instance initSepDecidable (al : Allocator) (nobjs objsz cpus : Nat) :
    Decidable (initSep al nobjs objsz cpus) := by
  unfold initSep
  infer_instance

theorem sumCounts_step (nobjs cpus i : Nat) :
    sumCounts nobjs cpus (i+1) = sumCounts nobjs cpus i + slotCount nobjs cpus i := rfl

theorem sumCounts_closed (nobjs cpus : Nat) :
    ∀ i, sumCounts nobjs cpus i = i * (nobjs / cpus) + min i (nobjs % cpus) := by
  intro i
  induction i with
  | zero => simp [sumCounts]
  | succ i ih =>
    rw [sumCounts_step, ih]
    unfold slotCount
    by_cases hi : i < nobjs % cpus
    · simp only [hi, if_true]
      have h1 : min i (nobjs % cpus) = i := by omega
      have h2 : min (i+1) (nobjs % cpus) = i + 1 := by omega
      rw [h1, h2]
      ring
    · simp only [hi, if_false]
      have h1 : min i (nobjs % cpus) = nobjs % cpus := by omega
      have h2 : min (i+1) (nobjs % cpus) = nobjs % cpus := by omega
      rw [h1, h2]
      ring

theorem sumCounts_full {nobjs cpus : Nat} (h : 0 < cpus) :
    sumCounts nobjs cpus cpus = nobjs := by
  rw [sumCounts_closed]
  have hr : nobjs % cpus < cpus := Nat.mod_lt _ h
  have hmin : min cpus (nobjs % cpus) = nobjs % cpus := by omega
  rw [hmin]
  exact Nat.div_add_mod nobjs cpus

theorem slotNodes_length (base objsz n : Nat) :
    (slotNodes base objsz n).length = n := by
  simp [slotNodes]

theorem slotNodes_nodup {objsz : Nat} (base n : Nat) (ho : 0 < objsz) :
    (slotNodes base objsz n).Nodup := by
  refine List.Nodup.map ?_ (List.nodup_range n)
  intro a b hab
  have h : base + 8 + a * objsz = base + 8 + b * objsz := hab
  have h2 : a * objsz = b * objsz := by omega
  exact Nat.eq_of_mul_eq_mul_right ho h2

theorem slotNodes_bounds {base objsz n a : Nat} (ho : 0 < objsz)
    (ha : a ∈ slotNodes base objsz n) :
    base + 8 ≤ a ∧ a < base + slotSize objsz n := by
  unfold slotNodes at ha
  rw [List.mem_map] at ha
  obtain ⟨j, hj, rfl⟩ := ha
  rw [List.mem_range] at hj
  constructor
  · show base + 8 ≤ base + 8 + j * objsz
    exact Nat.le_add_right _ _
  · show base + 8 + j * objsz < base + slotSize objsz n
    unfold slotSize
    have hsucc : j + 1 ≤ n := hj
    have h1 : j * objsz + objsz ≤ n * objsz := by
      calc j * objsz + objsz = (j + 1) * objsz := by ring
        _ ≤ n * objsz := Nat.mul_le_mul_right _ hsucc
    have h3 : objsz * n = n * objsz := Nat.mul_comm _ _
    omega

theorem slotNodes_pos {base objsz n a : Nat} (ho : 0 < objsz) (hb : 0 < base)
    (ha : a ∈ slotNodes base objsz n) : a ≠ 0 := by
  have := (slotNodes_bounds ho ha).1
  omega

/-- Linking a fresh node in front of a chain. -/
theorem insert_node_chain (s : SlotState) (a : Nat) (c : List Nat)
    (hch : isChain s.heap s.head c = true) (ha : a ∉ c) :
    isChain (freelist_insert_node s a).heap (freelist_insert_node s a).head
      (a :: c) = true ∧
    ((freelist_insert_node s a).heap a).refs = 1 ∧
    (∀ m, m ≠ a → (freelist_insert_node s a).heap m = s.heap m) := by
  have hmne : ∀ m, m ≠ a → (freelist_insert_node s a).heap m = s.heap m := by
    intro m hm
    show ((s.heap.setRefs a 1).setNext a s.head) m = s.heap m
    rw [Heap.setNext_ne _ _ hm, Heap.setRefs_ne _ _ hm]
  refine ⟨?_, ?_, hmne⟩
  · rw [isChain_cons]
    constructor
    · rfl
    · have hat : ((freelist_insert_node s a).heap a).next = s.head := by
        show (((s.heap.setRefs a 1).setNext a s.head) a).next = s.head
        rw [Heap.setNext_at]
      rw [hat]
      rw [isChain_congr (fun m hm => hmne m (fun e => ha (e ▸ hm)))]
      exact hch
  · show (((s.heap.setRefs a 1).setNext a s.head) a).refs = 1
    rw [Heap.setNext_at]
    simp

theorem carve_addr_inj {base objsz t t' : Nat} (ho : 0 < objsz)
    (h : base + 8 + t * objsz = base + 8 + t' * objsz) : t = t' := by
  have h2 : t * objsz = t' * objsz := by omega
  exact Nat.eq_of_mul_eq_mul_right ho h2

theorem putSlot_fields2 (st : FreelistHead) (i : Nat) (s : SlotState) :
    (st.putSlot i s).fh_in_slot = st.fh_in_slot ∧
    (st.putSlot i s).fh_vmalloc = st.fh_vmalloc := by
  cases hs : st.fh_slots with
  | none => simp [FreelistHead.putSlot, FreelistHead.setSlotHead, hs]
  | some sl =>
    cases hg : sl.getD i none with
    | none =>
      have hg' := getD_none_getElem? hg
      simp [FreelistHead.putSlot, FreelistHead.setSlotHead, List.getD_eq_getElem?_getD, hs, hg']
    | some fs =>
      have hg' : sl[i]? = some (some fs) := getD_some_getElem? hg
      simp [FreelistHead.putSlot, FreelistHead.setSlotHead, List.getD_eq_getElem?_getD, hs, hg']

theorem putSlot_fh_slots {st : FreelistHead} {sl : List (Option FSlot)} {i : Nat}
    {fs : FSlot} (hsl : st.fh_slots = some sl) (hfs : sl.getD i none = some fs)
    (s : SlotState) :
    (st.putSlot i s).fh_slots =
      some (sl.set i (some { addr := fs.addr, size := fs.size, fs_head := s.head })) := by
  have hg' : sl[i]? = some (some fs) := getD_some_getElem? hfs
  simp [FreelistHead.putSlot, FreelistHead.setSlotHead, hsl,
    List.getD_eq_getElem?_getD, hg']

theorem entryOK_of_entry {st : FreelistHead} {sl : List (Option FSlot)} {i : Nat}
    {fs : FSlot} (hsl : st.fh_slots = some sl) (hfs : sl.getD i none = some fs) :
    entryOK st i = true := by
  have hlt := getD_some_lt hfs
  have hg' : sl[i]? = some (some fs) := getD_some_getElem? hfs
  simp [entryOK, hsl, hlt, List.getD_eq_getElem?_getD, hg']

/-- Effect of the inner carving loop of `__freelist_init_slots` on slot
`i` when the callback never fails: the `k` nodes at `base + 8 + t*objsz`,
`j ≤ t < j + k`, are linked in front of the current chain `c0`, each with
refcount 1, the object counter rises by `k`, and nothing else changes. -/
theorem initSlotObjs_spec (i : Nat) (objinit : Option (Nat → Int))
    (base objsz : Nat) (hrc : ∀ a, objinitRC objinit a = 0) (ho : 0 < objsz) :
    ∀ (k j : Nat) (st : FreelistHead) (sl : List (Option FSlot)) (fs : FSlot)
      (c0 : List Nat),
    st.fh_slots = some sl → sl.getD i none = some fs →
    isChain st.heap (st.slotHead i) c0 = true →
    (∀ t, j ≤ t → t < j + k → (base + 8 + t * objsz) ∉ c0) →
    ∃ st' sl' h',
      initSlotObjsLoop i objinit base objsz k j st = (st', 0) ∧
      st'.fh_slots = some sl' ∧ sl'.length = sl.length ∧
      (∀ t, t ≠ i → sl'.getD t none = sl.getD t none) ∧
      sl'.getD i none = some { addr := fs.addr, size := fs.size, fs_head := h' } ∧
      st'.fh_nobjs = st.fh_nobjs + k ∧
      isChain st'.heap (st'.slotHead i)
        (((List.range' j k).map (fun t => base + 8 + t * objsz)).reverse ++ c0) = true ∧
      (∀ a, a ∈ (List.range' j k).map (fun t => base + 8 + t * objsz) →
        (st'.heap a).refs = 1) ∧
      (∀ m, m ∉ (List.range' j k).map (fun t => base + 8 + t * objsz) →
        st'.heap m = st.heap m) ∧
      st'.fh_ncpus = st.fh_ncpus ∧ st'.fh_pool = st.fh_pool ∧
      st'.fh_sz_pool = st.fh_sz_pool ∧ st'.fh_objsz = st.fh_objsz ∧
      st'.fh_in_slot = st.fh_in_slot ∧ st'.fh_vmalloc = st.fh_vmalloc := by
  intro k
  induction k with
  | zero =>
    intro j st sl fs c0 hsl hfs hch _
    exact ⟨st, sl, fs.fs_head, rfl, hsl, rfl, fun _ _ => rfl, hfs,
      by omega, by simpa using hch, by simp, fun _ _ => rfl,
      rfl, rfl, rfl, rfl, rfl, rfl⟩
  | succ k ih =>
    intro j st sl fs c0 hsl hfs hch hfresh
    have hok := entryOK_of_entry hsl hfs
    have hlt := getD_some_lt hfs
    set a := base + 8 + j * objsz with hadef
    have hstep : initSlotObjsLoop i objinit base objsz (k+1) j st =
        initSlotObjsLoop i objinit base objsz k (j+1)
          { st.putSlot i (freelist_insert_node (st.slotState i) a) with
            fh_nobjs :=
              (st.putSlot i (freelist_insert_node (st.slotState i) a)).fh_nobjs + 1 } := by
      simp only [initSlotObjsLoop]
      rw [hrc a]
      simp
    have hins := insert_node_chain (st.slotState i) a c0 hch
      (hfresh j (by omega) (by omega))
    have hsl1 := putSlot_fh_slots hsl hfs (freelist_insert_node (st.slotState i) a)
    have hins_head : (freelist_insert_node (st.slotState i) a).head = some a := rfl
    set st1 := st.putSlot i (freelist_insert_node (st.slotState i) a) with hst1
    set st2 : FreelistHead := { st1 with fh_nobjs := st1.fh_nobjs + 1 } with hst2
    set sl1 : List (Option FSlot) :=
      sl.set i (some { addr := fs.addr, size := fs.size, fs_head := some a }) with hsl1def
    have hsl2 : st2.fh_slots = some sl1 := hsl1
    have hfs1 : sl1.getD i none =
        some { addr := fs.addr, size := fs.size, fs_head := some a } :=
      getD_set_self _ none hlt
    have hsh2 : st2.slotHead i = some a :=
      putSlot_slotHead_same st i (freelist_insert_node (st.slotState i) a) hok
    have hheap2 : st2.heap = (freelist_insert_node (st.slotState i) a).heap := rfl
    have hch2 : isChain st2.heap (st2.slotHead i) (a :: c0) = true := by
      rw [hsh2, hheap2]
      have := hins.1
      rwa [hins_head] at this
    have hfresh2 : ∀ t, j + 1 ≤ t → t < (j + 1) + k →
        (base + 8 + t * objsz) ∉ (a :: c0) := by
      intro t h1 h2
      rw [List.mem_cons]
      rintro (he | hin)
      · have := carve_addr_inj ho he
        omega
      · exact hfresh t (by omega) (by omega) hin
    obtain ⟨st', sl', h', hrun, hsl', hlen', hne', hat', hnob', hch', hrefs', hfr',
      hcpu', hpool', hszp', hosz', hinslot', hvm'⟩ :=
      ih (j+1) st2 sl1 { addr := fs.addr, size := fs.size, fs_head := some a } (a :: c0)
        hsl2 hfs1 hch2 hfresh2
    have hmapsplit : (List.range' j (k+1)).map (fun t => base + 8 + t * objsz) =
        a :: (List.range' (j+1) k).map (fun t => base + 8 + t * objsz) := by
      rw [List.range'_succ]
      simp [hadef]
    have hanotin : a ∉ (List.range' (j+1) k).map (fun t => base + 8 + t * objsz) := by
      rw [List.mem_map]
      rintro ⟨t, ht, he⟩
      rw [List.mem_range'_1] at ht
      have := carve_addr_inj ho he.symm
      omega
    refine ⟨st', sl', h', ?_, hsl', by rw [hlen', hsl1def, List.length_set],
      ?_, hat', ?_, ?_, ?_, ?_, hcpu'.trans (putSlot_fields st i _).2.2.1,
      hpool'.trans (putSlot_fields st i _).2.2.2.1,
      hszp'.trans (putSlot_fields st i _).2.2.2.2,
      hosz'.trans (putSlot_fields st i _).1,
      hinslot'.trans (putSlot_fields2 st i _).1,
      hvm'.trans (putSlot_fields2 st i _).2⟩
    · rw [hstep]
      exact hrun
    · intro t ht
      rw [hne' t ht, hsl1def, getD_set_ne' _ none ht]
    · rw [hnob']
      have : st1.fh_nobjs = st.fh_nobjs := (putSlot_fields st i _).2.1
      have h2 : st2.fh_nobjs = st1.fh_nobjs + 1 := rfl
      omega
    · rw [hmapsplit]
      simp only [List.reverse_cons, List.append_assoc, List.singleton_append]
      exact hch'
    · intro b hb
      rw [hmapsplit, List.mem_cons] at hb
      rcases hb with hb | hb
      · rw [hb, hfr' a hanotin, hheap2]
        exact hins.2.1
      · exact hrefs' b hb
    · intro m hm
      rw [hmapsplit, List.mem_cons] at hm
      push_neg at hm
      rw [hfr' m hm.2, hheap2, hins.2.2 m hm.1]
      rfl

/-- Invariant of the outer loop of `__freelist_init_slots` on entry to
slot `i`: slots before `i` are built (allocated, sized, chained, linked
refcount 1), slots from `i` on are still NULL, and `fh_nobjs` counts the
built objects. -/
def initInv (al : Allocator) (nobjs objsz cpus i : Nat) (st : FreelistHead)
    (sl : List (Option FSlot)) : Prop :=
  st.fh_ncpus = cpus ∧ st.fh_in_slot = true ∧ st.fh_slots = some sl ∧
  sl.length = cpus ∧
  (∀ t, t < i → ∃ ht, sl.getD t none =
    some { addr := al.base t,
           size := slotSize objsz (slotCount nobjs cpus t), fs_head := ht }) ∧
  (∀ t, i ≤ t → t < cpus → sl.getD t none = none) ∧
  (∀ t, t < i → isChain st.heap (st.slotHead t)
    ((slotNodes (al.base t) objsz (slotCount nobjs cpus t)).reverse) = true) ∧
  (∀ t, t < i → ∀ a ∈ (slotNodes (al.base t) objsz (slotCount nobjs cpus t)).reverse,
    (st.heap a).refs = 1) ∧
  st.fh_nobjs = sumCounts nobjs cpus i

theorem initInv_vmalloc {al : Allocator} {nobjs objsz cpus i : Nat}
    {st : FreelistHead} {sl : List (Option FSlot)} (b : Bool)
    (h : initInv al nobjs objsz cpus i st sl) :
    initInv al nobjs objsz cpus i { st with fh_vmalloc := b } sl := h

theorem zeroNodes_outside (h : Heap) (base objsz : Nat) :
    ∀ n m, m ∉ slotNodes base objsz n → zeroNodes h base objsz n m = h m := by
  intro n
  induction n with
  | zero => intro m _; rfl
  | succ n ih =>
    intro m hm
    have h1 : m ∉ slotNodes base objsz n := by
      intro hc
      apply hm
      unfold slotNodes at hc ⊢
      rw [List.mem_map] at hc ⊢
      obtain ⟨j, hj, he⟩ := hc
      exact ⟨j, by rw [List.mem_range] at hj ⊢; omega, he⟩
    have h2 : m ≠ base + 8 + n * objsz := by
      intro hc
      apply hm
      unfold slotNodes
      rw [List.mem_map]
      exact ⟨n, by rw [List.mem_range]; omega, hc.symm⟩
    show ((zeroNodes h base objsz n).set (base + 8 + n * objsz) _) m = h m
    rw [Heap.set_ne _ _ h2]
    exact ih m h1

theorem slotHead_mk (st : FreelistHead) (X : List (Option FSlot)) (hp : Heap)
    (t : Nat) :
    ({ st with fh_slots := some X, heap := hp } : FreelistHead).slotHead t =
      (match X.getD t none with
       | none => none
       | some fs => fs.fs_head) := rfl

/-- Two distinct slots carve disjoint node sets. -/
theorem slotNodes_disjoint {al : Allocator} {nobjs objsz cpus : Nat}
    (hsep : initSep al nobjs objsz cpus) (ho : 0 < objsz) {t i : Nat}
    (ht : t < cpus) (hi : i < cpus) (hne : t ≠ i) {a : Nat}
    (hat : a ∈ slotNodes (al.base t) objsz (slotCount nobjs cpus t)) :
    a ∉ slotNodes (al.base i) objsz (slotCount nobjs cpus i) := by
  intro hai
  have hb1 := slotNodes_bounds ho hat
  have hb2 := slotNodes_bounds ho hai
  rcases hsep.2 t ht i hi hne with hs | hs <;> omega

/-- One slot of the outer loop of `__freelist_init_slots`: allocation,
memset, carving, with the invariant advanced from `i` to `i + 1`. -/
theorem initInv_step (al : Allocator) (nobjs objsz : Nat)
    (objinit : Option (Nat → Int)) (cpus i : Nat)
    (hrc : ∀ a, objinitRC objinit a = 0) (ho : 0 < objsz)
    (hsep : initSep al nobjs objsz cpus)
    (st0 : FreelistHead) (sl : List (Option FSlot))
    (hinv : initInv al nobjs objsz cpus i st0 sl) (hik : i < cpus) :
    ∃ st2 sl2,
      initSlotObjsLoop i objinit (al.base i) objsz (slotCount nobjs cpus i) 0
        { st0 with
          fh_slots := some (sl.set i (some
            { addr := al.base i,
              size := slotSize objsz (slotCount nobjs cpus i), fs_head := none })),
          heap := zeroNodes st0.heap (al.base i) objsz (slotCount nobjs cpus i) }
        = (st2, 0) ∧
      initInv al nobjs objsz cpus (i+1) st2 sl2 ∧
      st2.fh_pool = st0.fh_pool ∧ st2.fh_sz_pool = st0.fh_sz_pool ∧
      st2.fh_objsz = st0.fh_objsz ∧ st2.fh_in_slot = st0.fh_in_slot ∧
      st2.fh_vmalloc = st0.fh_vmalloc := by
  obtain ⟨hcn, hslot, hsl, hlen, hbuilt, hnull, hchains, hrefs, hnob⟩ := hinv
  set n := slotCount nobjs cpus i with hn
  set base := al.base i with hbase
  set fsi : FSlot :=
    { addr := base, size := slotSize objsz n, fs_head := none } with hfsi
  set st1 : FreelistHead :=
    { st0 with
      fh_slots := some (sl.set i (some fsi)),
      heap := zeroNodes st0.heap base objsz n } with hst1
  have hsl1 : st1.fh_slots = some (sl.set i (some fsi)) := rfl
  have hfs1 : (sl.set i (some fsi)).getD i none = some fsi :=
    getD_set_self _ none (by omega)
  have hsh1 : st1.slotHead i = none := by
    rw [hst1, slotHead_mk, hfs1]
  have hch1 : isChain st1.heap (st1.slotHead i) [] = true := by
    rw [hsh1]
    simp [isChain]
  obtain ⟨st2, sl2, h2, hrun, hsl2, hlen2, hne2, hat2, hnob2, hch2, hrefs2, hfr2,
    hcpu2, hpool2, hszp2, hosz2, hinslot2, hvm2⟩ :=
    initSlotObjs_spec i objinit base objsz hrc ho n 0 st1 (sl.set i (some fsi))
      fsi [] hsl1 hfs1 hch1 (by intro t _ _ hc; exact absurd hc (List.not_mem_nil _))
  have hmapeq : (List.range' 0 n).map (fun t => base + 8 + t * objsz) =
      slotNodes base objsz n := by
    unfold slotNodes
    rw [List.range_eq_range']
  rw [hmapeq] at hch2 hrefs2 hfr2
  refine ⟨st2, sl2, hrun, ?_, hpool2, hszp2, hosz2, hinslot2.trans rfl, hvm2.trans rfl⟩
  refine ⟨hcpu2.trans hcn, hinslot2.trans hslot, hsl2,
    by rw [hlen2, List.length_set]; exact hlen, ?_, ?_, ?_, ?_, ?_⟩
  · -- entries up to i+1 are built
    intro t htlt
    by_cases hti : t = i
    · subst hti
      exact ⟨h2, by rw [hat2]⟩
    · have ht2 : t < i := by omega
      obtain ⟨ht', he'⟩ := hbuilt t ht2
      refine ⟨ht', ?_⟩
      rw [hne2 t hti, getD_set_ne' _ none hti]
      exact he'
  · -- entries from i+1 on are still NULL
    intro t h1 h2'
    rw [hne2 t (by omega), getD_set_ne' _ none (by omega)]
    exact hnull t (by omega) h2'
  · -- chains
    intro t htlt
    by_cases hti : t = i
    · subst hti
      have := hch2
      rwa [List.append_nil] at this
    · have ht2 : t < i := by omega
      have hfr : ∀ a ∈ (slotNodes (al.base t) objsz (slotCount nobjs cpus t)).reverse,
          st2.heap a = st0.heap a := by
        intro a ha
        rw [List.mem_reverse] at ha
        have hnotin := slotNodes_disjoint hsep ho (by omega) hik hti ha
        rw [hfr2 a hnotin]
        show zeroNodes st0.heap base objsz n a = st0.heap a
        exact zeroNodes_outside st0.heap base objsz n a hnotin
      have hsh : st2.slotHead t = st0.slotHead t := by
        have hs2 : st2.slotHead t =
            (match sl2.getD t none with
             | none => none
             | some fs => fs.fs_head) := by
          rw [FreelistHead.slotHead, hsl2]
        have hs0 : st0.slotHead t =
            (match sl.getD t none with
             | none => none
             | some fs => fs.fs_head) := by
          rw [FreelistHead.slotHead, hsl]
        rw [hs2, hs0, hne2 t hti, getD_set_ne' _ none hti]
      rw [hsh, isChain_congr hfr]
      exact hchains t ht2
  · -- refcounts
    intro t htlt a ha
    by_cases hti : t = i
    · subst hti
      rw [List.mem_reverse] at ha
      exact hrefs2 a ha
    · have ht2 : t < i := by omega
      rw [List.mem_reverse] at ha
      have hnotin := slotNodes_disjoint hsep ho (by omega) hik hti ha
      rw [hfr2 a hnotin]
      have h1 : st1.heap a = st0.heap a :=
        zeroNodes_outside st0.heap base objsz n a hnotin
      rw [h1]
      exact hrefs t ht2 a (List.mem_reverse.mpr ha)
  · -- object count
    rw [hnob2]
    have : st1.fh_nobjs = st0.fh_nobjs := rfl
    rw [this, hnob, sumCounts_step]

theorem ite_vmalloc (st : FreelistHead) (c : Prop) [Decidable c] (b : Bool) :
    (if c then ({ st with fh_vmalloc := b } : FreelistHead) else st) =
      { st with fh_vmalloc := if c then b else st.fh_vmalloc } := by
  by_cases hc : c <;> simp [hc]

/-- The outer loop of `__freelist_init_slots`, from slot `i` to the end:
under a sane allocator and a never-failing callback it succeeds and
establishes the invariant for all `cpus` slots. -/
theorem initSlotsLoop_spec (al : Allocator) (gfpAtomic : Bool) (nobjs objsz : Nat)
    (objinit : Option (Nat → Int)) (cpus : Nat)
    (hrc : ∀ a, objinitRC objinit a = 0) (ho : 0 < objsz)
    (hsep : initSep al nobjs objsz cpus) (hokal : ∀ t, al.ok t = true) :
    ∀ (k i : Nat) (st : FreelistHead) (sl : List (Option FSlot)),
    i + k = cpus →
    initInv al nobjs objsz cpus i st sl →
    ∃ st' sl',
      initSlotsLoop al gfpAtomic nobjs objsz objinit k i st = (st', 0) ∧
      initInv al nobjs objsz cpus cpus st' sl' ∧
      st'.fh_pool = st.fh_pool ∧ st'.fh_sz_pool = st.fh_sz_pool ∧
      st'.fh_objsz = st.fh_objsz := by
  intro k
  induction k with
  | zero =>
    intro i st sl hik hinv
    have hi : i = cpus := by omega
    subst hi
    exact ⟨st, sl, rfl, hinv, rfl, rfl, rfl⟩
  | succ k ih =>
    intro i st sl hik hinv
    have hcn := hinv.1
    have hslot := hinv.2.1
    have hsl := hinv.2.2.1
    have hik2 : i < cpus := by omega
    obtain ⟨st2, sl2, hrun, hinv2, hp2, hsz2, hos2, hin2, hvm2⟩ :=
      initInv_step al nobjs objsz objinit cpus i hrc ho hsep
        { st with
          fh_vmalloc :=
            if i = 0 then
              decide (¬ (gfpAtomic = true ∨
                8 + objsz * (nobjs / st.fh_ncpus +
                  (if i < nobjs % st.fh_ncpus then 1 else 0)) < PAGE_SIZE))
            else st.fh_vmalloc }
        sl (initInv_vmalloc _ hinv) hik2
    obtain ⟨st', sl', hrun', hinv', hp', hsz', hos'⟩ :=
      ih (i+1) st2 sl2 (by omega) hinv2
    refine ⟨st', sl', ?_, hinv', hp'.trans (hp2.trans rfl), hsz'.trans (hsz2.trans rfl),
      hos'.trans (hos2.trans rfl)⟩
    rw [initSlotsLoop]
    rw [ite_vmalloc]
    simp only [hokal i, hcn, hsl, Option.getD_some, hslot, if_true]
    rw [if_neg (by simp)]
    simp only [slotCount, slotSize, hcn, hslot] at hrun
    rw [hrun]
    simp [hrun']

theorem getD_replicate_none (n t : Nat) :
    (List.replicate n (none : Option FSlot)).getD t none = none := by
  induction n generalizing t with
  | zero => rfl
  | succ n ih =>
    cases t with
    | zero => rfl
    | succ t => simpa [List.replicate_succ] using ih t

theorem getD_map_range {α : Type} (f : Nat → α) (d : α) {i n : Nat} (hi : i < n) :
    ((List.range n).map f).getD i d = f i := by
  have hlt : i < ((List.range n).map f).length := by simpa using hi
  rw [List.getD_eq_getElem?_getD, List.getElem?_eq_getElem hlt]
  simp

theorem sum_range_counts (nobjs cpus : Nat) :
    ∀ i, ((List.range i).map (fun t => slotCount nobjs cpus t)).sum =
      sumCounts nobjs cpus i := by
  intro i
  induction i with
  | zero => rfl
  | succ i ih =>
    rw [List.range_succ, List.map_append, List.sum_append, ih]
    simp [sumCounts]

theorem inslot_of_between {st : FreelistHead} {t a : Nat} (ht : t < st.fh_ncpus)
    {b sz : Nat} (hm : slotMeta st t = some (b, sz)) (ha0 : a ≠ 0)
    (h1 : b ≤ a) (h2 : a < b + sz) : freelist_is_inslot a st = true := by
  unfold freelist_is_inslot
  rw [List.any_eq_true]
  refine ⟨t, List.mem_range.mpr ht, ?_⟩
  unfold slotMeta at hm
  cases hq : (st.fh_slots.getD []).getD t none with
  | none => rw [hq] at hm; exact absurd hm (by simp)
  | some fs =>
    rw [hq] at hm
    have hfs : fs.addr = b ∧ fs.size = sz := by
      have := Option.some.inj hm
      exact ⟨congrArg Prod.fst this, congrArg Prod.snd this⟩
    simp only [decide_eq_true_eq]
    exact ⟨ha0, hfs.1 ▸ h1, by rw [hfs.1, hfs.2]; exact h2⟩

theorem inpool_of_zero {st : FreelistHead} (hp : st.fh_pool = 0)
    (hs : st.fh_sz_pool = 0) (a : Nat) : freelist_is_inpool a st = false := by
  simp [freelist_is_inpool, hp, hs]

/-- Success and shape of `freelist_init` under a sane allocator, a
positive object size and a never-failing callback: the pool satisfies the
invariant with the `initChains` chain list, carrying exactly `nobjs`
pre-allocated nodes, all of which lie inside the slot backing storage. -/
theorem freelist_init_builds (ncpus nobjs objsz : Nat) (gfpAtomic : Bool)
    (al : Allocator) (objinit : Option (Nat → Int)) (h0 : Heap)
    (hn : 0 < ncpus) (ho : 0 < alignPtr objsz)
    (harr : al.arrayOk = true) (hokal : ∀ t, al.ok t = true)
    (hsep : initSep al nobjs (alignPtr objsz) ncpus)
    (hrc : ∀ a, objinitRC objinit a = 0) :
    ∃ st, freelist_init ncpus nobjs objsz gfpAtomic al objinit h0 = (st, 0) ∧
      poolInv st (initChains al nobjs (alignPtr objsz) ncpus) ∧
      (initChains al nobjs (alignPtr objsz) ncpus).flatten.length = nobjs ∧
      st.fh_nobjs = nobjs ∧ st.fh_ncpus = ncpus ∧
      st.fh_pool = 0 ∧ st.fh_sz_pool = 0 ∧ st.fh_objsz = objsz ∧
      (∀ a ∈ (initChains al nobjs (alignPtr objsz) ncpus).flatten,
        freelist_is_inslot a st = true) ∧
      (∀ t, t < ncpus → slotMeta st t =
        some (al.base t, slotSize (alignPtr objsz) (slotCount nobjs ncpus t))) ∧
      (∀ a ∈ (initChains al nobjs (alignPtr objsz) ncpus).flatten,
        ∃ t, t < ncpus ∧ al.base t ≤ a ∧
          a < al.base t + slotSize (alignPtr objsz) (slotCount nobjs ncpus t)) := by
  set objsz' := alignPtr objsz with hobjsz'
  set ls := initChains al nobjs objsz' ncpus with hls
  set st1 : FreelistHead :=
    { fh_objsz := objsz, fh_nobjs := 0, fh_ncpus := ncpus,
      fh_in_slot := true, fh_vmalloc := false, fh_sz_pool := 0, fh_pool := 0,
      fh_slots := some (List.replicate ncpus (none : Option FSlot)),
      heap := h0 } with hst1
  have hinv1 : initInv al nobjs objsz' ncpus 0 st1
      (List.replicate ncpus (none : Option FSlot)) := by
    refine ⟨rfl, rfl, rfl, by simp, ?_, ?_, ?_, ?_, rfl⟩
    · intro t ht; omega
    · intro t _ _; exact getD_replicate_none ncpus t
    · intro t ht; omega
    · intro t ht; omega
  obtain ⟨st', sl', hrun, hinv', hp', hsz', hos'⟩ :=
    initSlotsLoop_spec al gfpAtomic nobjs objsz' objinit ncpus hrc ho hsep hokal
      ncpus 0 st1 (List.replicate ncpus (none : Option FSlot)) (by omega) hinv1
  obtain ⟨hcn', hslot', hsl', hlen', hbuilt', _, hchains', hrefs', hnob'⟩ := hinv'
  have hout : freelist_init ncpus nobjs objsz gfpAtomic al objinit h0 = (st', 0) := by
    unfold freelist_init freelist_init_slots
    simp only [harr]
    rw [if_neg (show ¬ (true = false) by simp)]
    rw [if_pos (show alignPtr objsz ≠ 0 by omega)]
    dsimp only
    rw [hrun]
    simp
  -- chain lists
  have hgd : ∀ t, t < ncpus → ls.getD t [] =
      (slotNodes (al.base t) objsz' (slotCount nobjs ncpus t)).reverse := by
    intro t ht
    rw [hls]
    unfold initChains
    exact getD_map_range _ [] ht
  have hmemls : ∀ l ∈ ls, ∃ t, t < ncpus ∧
      l = (slotNodes (al.base t) objsz' (slotCount nobjs ncpus t)).reverse := by
    intro l hl
    rw [hls] at hl
    unfold initChains at hl
    rw [List.mem_map] at hl
    obtain ⟨t, ht, he⟩ := hl
    exact ⟨t, List.mem_range.mp ht, he.symm⟩
  have hslotsOK : slotsOK st' = true := by
    unfold slotsOK
    rw [hsl']
    simp only [Bool.and_eq_true, decide_eq_true_eq, List.all_eq_true]
    refine ⟨by rw [hlen', hcn'], ?_⟩
    intro t ht
    rw [List.mem_range, hcn'] at ht
    obtain ⟨hh, he⟩ := hbuilt' t ht
    rw [he]
    rfl
  have hinvP : poolInv st' ls := by
    refine ⟨hslotsOK, ?_, ?_, ?_, ?_⟩
    · rw [hls]
      unfold initChains
      simp [hcn']
    · intro t ht
      rw [hcn'] at ht
      rw [hgd t ht]
      exact hchains' t ht
    · rw [List.nodup_flatten]
      constructor
      · intro l hl
        obtain ⟨t, _, he⟩ := hmemls l hl
        rw [he, List.nodup_reverse]
        exact slotNodes_nodup _ _ ho
      · rw [hls]
        unfold initChains
        rw [List.pairwise_map]
        refine List.Pairwise.imp_of_mem ?_ (List.pairwise_lt_range ncpus)
        intro a b hma hmb hab
        rw [List.mem_range] at hma hmb
        intro x hxa hxb
        rw [List.mem_reverse] at hxa hxb
        exact slotNodes_disjoint hsep ho hma hmb (by omega) hxa hxb
    · intro m hm
      rw [List.mem_flatten] at hm
      obtain ⟨l, hl, hml⟩ := hm
      obtain ⟨t, ht, he⟩ := hmemls l hl
      rw [he] at hml
      exact hrefs' t ht m hml
  have hflatlen : ls.flatten.length = nobjs := by
    rw [List.length_flatten, hls]
    unfold initChains
    rw [List.map_map]
    have hmeq : (List.length ∘ fun i =>
        (slotNodes (al.base i) objsz' (slotCount nobjs ncpus i)).reverse) =
        fun t => slotCount nobjs ncpus t := by
      funext t
      simp [Function.comp, slotNodes_length]
    rw [hmeq, sum_range_counts, sumCounts_full hn]
  have hmeta : ∀ t, t < ncpus → slotMeta st' t =
      some (al.base t, slotSize objsz' (slotCount nobjs ncpus t)) := by
    intro t ht
    obtain ⟨hh, he⟩ := hbuilt' t ht
    unfold slotMeta
    rw [hsl']
    simp only [Option.getD_some]
    rw [he]
  refine ⟨st', hout, hinvP, hflatlen, by rw [hnob', sumCounts_full hn], hcn',
    hp', hsz', hos', ?_, hmeta, ?_⟩
  · intro a ha
    rw [List.mem_flatten] at ha
    obtain ⟨l, hl, hal⟩ := ha
    obtain ⟨t, ht, he⟩ := hmemls l hl
    rw [he, List.mem_reverse] at hal
    have hb := slotNodes_bounds ho hal
    have hbase := hsep.1 t ht
    exact inslot_of_between (by rw [hcn']; exact ht) (hmeta t ht)
      (by omega) (by omega) hb.2
  · intro a ha
    rw [List.mem_flatten] at ha
    obtain ⟨l, hl, hal⟩ := ha
    obtain ⟨t, ht, he⟩ := hmemls l hl
    rw [he, List.mem_reverse] at hal
    have hb := slotNodes_bounds ho hal
    exact ⟨t, ht, by omega, hb.2⟩

/-! Claim C2: draining a pool returns every inserted node exactly once. -/

/-- Calling `freelist_pop` from a fixed cpu repeatedly until it reports
empty, collecting the returned nodes in order; `none` models
nontermination. -/
def drainPool (fuel cpu : Nat) : Nat → FreelistHead → Option (FreelistHead × List Nat)
  | 0, _ => none
  | d+1, st =>
    match freelist_pop fuel st cpu with
    | (_, none) => none
    | (st1, some none) => some (st1, [])
    | (st1, some (some n)) =>
      match drainPool fuel cpu d st1 with
      | none => none
      | some (st2, l) => some (st2, n :: l)

theorem set_getD_self {α : Type} (ls : List α) (i : Nat) (d : α)
    (hi : i < ls.length) : ls.set i (ls.getD i d) = ls := by
  apply List.ext_getElem?
  intro j
  by_cases hj : j = i
  · subst hj
    rw [List.getElem?_set_self', List.getElem?_eq_getElem hi]
    simp [List.getD_eq_getElem?_getD, List.getElem?_eq_getElem hi]
  · rw [List.getElem?_set_ne (fun e => hj e.symm)]

theorem flatten_empty_of_chains {ls : List (List Nat)}
    (h : ∀ l ∈ ls, l = ([] : List Nat)) : ls.flatten = [] := by
  induction ls with
  | nil => rfl
  | cons a ls ih =>
    rw [List.flatten_cons, h a (by simp), ih (fun l hl => h l (by simp [hl]))]
    rfl

/-- Draining a pool that satisfies the invariant returns a permutation of
all chained nodes: exactly `ls.flatten.length` pairwise-distinct nodes. -/
theorem drainPool_spec (fuel cpu : Nat) :
    ∀ (d : Nat) (st : FreelistHead) (ls : List (List Nat)),
    poolInv st ls → cpu < st.fh_ncpus → ls.flatten.length < d →
    ∃ st' L, drainPool (fuel+1) cpu d st = some (st', L) ∧
      L.Perm ls.flatten := by
  intro d
  induction d with
  | zero => intro st ls _ _ h; omega
  | succ d ih =>
    intro st ls hinv hcpu hlen
    by_cases hall : ∀ i, i < st.fh_ncpus → st.slotHead i = none
    · have hemp : ∀ t, t < st.fh_ncpus →
          st.slotHead ((cpu + t) % st.fh_ncpus) = none := by
        intro t _
        exact hall _ (Nat.mod_lt _ (by omega))
      obtain ⟨st1, hrun, _, _, _, _⟩ :=
        popLoop_all_empty fuel st.fh_ncpus cpu st ls hinv hcpu hemp
      have hfl : ls.flatten = [] := by
        apply flatten_empty_of_chains
        intro l hl
        obtain ⟨j, hj, he⟩ := List.mem_iff_getElem.mp hl
        have hjc : j < st.fh_ncpus := by
          rw [← hinv.2.1]; exact hj
        have hnone := (poolInv_head_none_iff hinv hjc).mp (hall j hjc)
        rw [List.getD_eq_getElem?_getD, List.getElem?_eq_getElem hj] at hnone
        simp at hnone
        rw [← he, hnone]
      refine ⟨st1, [], ?_, by rw [hfl]⟩
      show drainPool (fuel+1) cpu (d+1) st = some (st1, [])
      unfold drainPool freelist_pop
      rw [hrun]
    · push_neg at hall
      obtain ⟨i, hi, hne⟩ := hall
      have hP : ∃ t, st.slotHead ((cpu + t) % st.fh_ncpus) ≠ none :=
        ⟨(i + st.fh_ncpus - cpu) % st.fh_ncpus, by rw [scan_reaches hcpu hi]; exact hne⟩
      set t0 := Nat.find hP with ht0def
      have ht0lt : t0 < st.fh_ncpus := by
        have h1 : t0 ≤ (i + st.fh_ncpus - cpu) % st.fh_ncpus :=
          Nat.find_min' hP (by rw [scan_reaches hcpu hi]; exact hne)
        have h2 : (i + st.fh_ncpus - cpu) % st.fh_ncpus < st.fh_ncpus :=
          Nat.mod_lt _ (by omega)
        omega
      have hspec := Nat.find_spec hP
      have hemp : ∀ t, t < t0 → st.slotHead ((cpu + t) % st.fh_ncpus) = none := by
        intro t ht
        have := Nat.find_min hP ht
        by_contra hc
        exact this hc
      have hjc : (cpu + t0) % st.fh_ncpus < st.fh_ncpus := Nat.mod_lt _ (by omega)
      cases hl : ls.getD ((cpu + t0) % st.fh_ncpus) [] with
      | nil =>
        exact absurd ((poolInv_head_none_iff hinv hjc).mpr hl) hspec
      | cons n rest =>
        obtain ⟨st1, hrun, hinv1, _, _, _, hm1⟩ :=
          popLoop_found fuel st.fh_ncpus t0 cpu st ls n rest hinv hcpu ht0lt hemp hl
        have hperm := flatten_set_perm ls ((cpu + t0) % st.fh_ncpus) n rest
          (by rw [hinv.2.1]; exact hjc) hl
        have hlen1 : (ls.set ((cpu + t0) % st.fh_ncpus) rest).flatten.length < d := by
          have hl2 := hperm.length_eq
          rw [List.length_cons] at hl2
          omega
        obtain ⟨st2, L, hrun2, hperm2⟩ :=
          ih st1 (ls.set ((cpu + t0) % st.fh_ncpus) rest) hinv1
            (by rw [hm1.1]; exact hcpu) hlen1
        refine ⟨st2, n :: L, ?_, ?_⟩
        · show drainPool (fuel+1) cpu (d+1) st = some (st2, n :: L)
          unfold drainPool freelist_pop
          rw [hrun]
          dsimp only
          rw [hrun2]
        · exact (hperm2.cons n).trans hperm.symm

/-- `freelist_add_scattered` of a fresh node always succeeds, preserves
the invariant and prepends the node (with linked refcount 1) to the chain
of the least-populated slot `fh_nobjs % fh_ncpus`. -/
theorem add_scattered_inv {st : FreelistHead} {ls : List (List Nat)} (n : Nat)
    (hinv : poolInv st ls) (hn0 : 0 < st.fh_ncpus) (hfresh : n ∉ ls.flatten) :
    ∃ st' ls',
      freelist_add_scattered n st = (st', 0) ∧ poolInv st' ls' ∧
      ls'.flatten.Perm (n :: ls.flatten) ∧
      st'.fh_nobjs = st.fh_nobjs + 1 ∧ st'.fh_ncpus = st.fh_ncpus ∧
      st'.fh_pool = st.fh_pool ∧ st'.fh_sz_pool = st.fh_sz_pool ∧
      st'.fh_objsz = st.fh_objsz ∧ (∀ i, slotMeta st' i = slotMeta st i) := by
  obtain ⟨hso, hlen, hcha, hnd, hrf⟩ := hinv
  set cpu := st.fh_nobjs % st.fh_ncpus with hcpu_def
  have hcpu : cpu < st.fh_ncpus := Nat.mod_lt _ hn0
  have hok : entryOK st cpu = true := slotsOK_entryOK hso hcpu
  set c := ls.getD cpu [] with hc
  have hlc : cpu < ls.length := by rw [hlen]; exact hcpu
  have hnc : n ∉ c := fun hm => hfresh (mem_flatten_of_getD hlc hm)
  have hins := insert_node_chain (st.slotState cpu) n c (hcha cpu hcpu) hnc
  set st1 := st.putSlot cpu (freelist_insert_node (st.slotState cpu) n) with hst1
  set st2 : FreelistHead := { st1 with fh_nobjs := st1.fh_nobjs + 1 } with hst2
  set ls' := ls.set cpu (n :: c) with hls'
  have hgds : ls'.getD cpu [] = n :: c := getD_set_self _ [] hlc
  have hperm : ls'.flatten.Perm (n :: ls.flatten) := by
    have h1 := flatten_set_perm ls' cpu n c (by rw [hls', List.length_set]; exact hlc) hgds
    have h2 : ls'.set cpu c = ls := by
      rw [hls', List.set_set]
      exact set_getD_self ls cpu [] hlc
    rw [h2] at h1
    exact h1
  have hndp : ls'.flatten.Nodup := by
    refine hperm.symm.nodup ?_
    rw [List.nodup_cons]
    exact ⟨hfresh, hnd⟩
  have hsh1 : st2.slotHead cpu = some n :=
    putSlot_slotHead_same st cpu (freelist_insert_node (st.slotState cpu) n) hok
  have hheap : st2.heap = (freelist_insert_node (st.slotState cpu) n).heap := rfl
  have hmeta : sameMeta st st1 := putSlot_sameMeta st cpu _
  refine ⟨st2, ls', rfl, ⟨?_, ?_, ?_, hndp, ?_⟩, hperm, ?_, hmeta.1, hmeta.2.2.1,
    hmeta.2.2.2.1, hmeta.2.2.2.2.1, hmeta.2.2.2.2.2.1⟩
  · exact (show slotsOK st2 = slotsOK st1 from rfl).trans
      ((putSlot_slotsOK st cpu _).trans hso)
  · show ls'.length = st2.fh_ncpus
    rw [hls', List.length_set]
    exact hlen.trans hmeta.1.symm
  · intro i hi
    have hi' : i < st.fh_ncpus := by rw [← hmeta.1]; exact hi
    by_cases hic : i = cpu
    · subst hic
      rw [hsh1, hgds, hheap]
      exact hins.1
    · have hshne : st2.slotHead i = st.slotHead i :=
        putSlot_slotHead_ne st cpu _ hic
      rw [hshne]
      have hgdne : ls'.getD i [] = ls.getD i [] := getD_set_ne' _ [] hic
      rw [hgdne, hheap]
      rw [isChain_congr (fun m hm => hins.2.2 m
        (fun he => hfresh (he ▸ mem_flatten_of_getD (by rw [hlen]; exact hi') hm)))]
      exact hcha i hi'
  · intro m hm
    by_cases hmn : m = n
    · subst hmn
      rw [hheap]
      exact hins.2.1
    · rw [hheap, hins.2.2 m hmn]
      have hmem : m ∈ ls.flatten := by
        have := hperm.subset hm
        rw [List.mem_cons] at this
        rcases this with he | hmem
        · exact absurd he hmn
        · exact hmem
      exact hrf m hmem
  · show st2.fh_nobjs = st.fh_nobjs + 1
    have h1 : st1.fh_nobjs = st.fh_nobjs := (putSlot_fields st cpu _).2.1
    show st1.fh_nobjs + 1 = st.fh_nobjs + 1
    omega

/-- Setup-time insertion of a batch of externally owned nodes, one
`freelist_add_scattered` call per node. -/
def addScatteredList (R : List Nat) (st : FreelistHead) : FreelistHead :=
  R.foldl (fun s r => (freelist_add_scattered r s).1) st

theorem addScatteredList_inv :
    ∀ (R : List Nat) (st : FreelistHead) (ls : List (List Nat)),
    poolInv st ls → 0 < st.fh_ncpus → R.Nodup → (∀ r ∈ R, r ∉ ls.flatten) →
    ∃ st' ls', addScatteredList R st = st' ∧ poolInv st' ls' ∧
      ls'.flatten.Perm (R ++ ls.flatten) ∧
      st'.fh_nobjs = st.fh_nobjs + R.length ∧ st'.fh_ncpus = st.fh_ncpus ∧
      st'.fh_pool = st.fh_pool ∧ st'.fh_sz_pool = st.fh_sz_pool ∧
      st'.fh_objsz = st.fh_objsz ∧ (∀ i, slotMeta st' i = slotMeta st i) := by
  intro R
  induction R with
  | nil =>
    intro st ls hinv hn0 _ _
    exact ⟨st, ls, rfl, hinv, by simp, by simp, rfl, rfl, rfl, rfl, fun _ => rfl⟩
  | cons r R ih =>
    intro st ls hinv hn0 hnd hfresh
    obtain ⟨st1, ls1, hadd, hinv1, hperm1, hnob1, hcn1, hp1, hsz1, hos1, hm1⟩ :=
      add_scattered_inv r hinv hn0 (hfresh r (by simp))
    have hfresh1 : ∀ x ∈ R, x ∉ ls1.flatten := by
      intro x hx hmem
      have := hperm1.subset hmem
      rw [List.mem_cons] at this
      rcases this with he | hmem2
      · rw [List.nodup_cons] at hnd
        exact hnd.1 (he ▸ hx)
      · exact hfresh x (by simp [hx]) hmem2
    obtain ⟨st', ls', hrun, hinv', hperm', hnob', hcn', hp', hsz', hos', hm'⟩ :=
      ih st1 ls1 hinv1 (by rw [hcn1]; exact hn0) (List.nodup_cons.mp hnd).2 hfresh1
    refine ⟨st', ls', ?_, hinv', ?_, ?_, hcn'.trans hcn1, hp'.trans hp1,
      hsz'.trans hsz1, hos'.trans hos1, fun i => (hm' i).trans (hm1 i)⟩
    · show addScatteredList (r :: R) st = st'
      unfold addScatteredList at hrun ⊢
      rw [List.foldl_cons]
      rw [hadd]
      exact hrun
    · exact (hperm'.trans (List.Perm.append_left R hperm1)).trans List.perm_middle
    · rw [hnob', hnob1, List.length_cons]
      omega

/-- The carving loop of `freelist_populate`: every `objsz` bytes of the
buffer still fitting below `size` become one fresh node scattered into
the pool; the invariant is preserved and the nodes all lie inside the
window `[buf + used, buf + size)`. -/
theorem populateLoop_spec (objinit : Option (Nat → Int)) (buf size objsz : Nat)
    (hrc : ∀ a, objinitRC objinit a = 0) (ho : 0 < objsz) :
    ∀ (k used : Nat) (st : FreelistHead) (ls : List (List Nat)),
    poolInv st ls → 0 < st.fh_ncpus →
    (∀ a, buf + used ≤ a → a < buf + size → a ∉ ls.flatten) →
    ∃ st' ls' ns,
      populateLoop objinit buf size objsz k used st =
        (st', used + objsz * ns.length, 0) ∧
      poolInv st' ls' ∧ ls'.flatten.Perm (ns ++ ls.flatten) ∧ ns.Nodup ∧
      (∀ a ∈ ns, buf + used ≤ a ∧ a < buf + size) ∧
      (0 < k → used + objsz ≤ size → ns ≠ []) ∧
      st'.fh_nobjs = st.fh_nobjs + ns.length ∧ st'.fh_ncpus = st.fh_ncpus ∧
      st'.fh_pool = st.fh_pool ∧ st'.fh_sz_pool = st.fh_sz_pool ∧
      st'.fh_objsz = st.fh_objsz ∧ (∀ i, slotMeta st' i = slotMeta st i) := by
  intro k
  induction k with
  | zero =>
    intro used st ls hinv hn0 _
    exact ⟨st, ls, [], by simp [populateLoop], hinv, by simp, by simp,
      by simp, by omega, by simp, rfl, rfl, rfl, rfl, fun _ => rfl⟩
  | succ k ih =>
    intro used st ls hinv hn0 hfresh
    by_cases hle : used + objsz ≤ size
    · obtain ⟨st1, ls1, hadd, hinv1, hperm1, hnob1, hcn1, hp1, hsz1, hos1, hm1⟩ :=
        add_scattered_inv (buf + used) hinv hn0
          (hfresh (buf + used) (by omega) (by omega))
      have hfresh1 : ∀ a, buf + (used + objsz) ≤ a → a < buf + size →
          a ∉ ls1.flatten := by
        intro a h1 h2 hmem
        have := hperm1.subset hmem
        rw [List.mem_cons] at this
        rcases this with he | hmem2
        · omega
        · exact hfresh a (by omega) h2 hmem2
      obtain ⟨st', ls', ns, hrun, hinv', hperm', hnd', hbnd', hne', hnob', hcn',
        hp', hsz', hos', hm'⟩ :=
        ih (used + objsz) st1 ls1 hinv1 (by rw [hcn1]; exact hn0) hfresh1
      have hanotin : buf + used ∉ ns := by
        intro hm
        have := (hbnd' _ hm).1
        omega
      refine ⟨st', ls', (buf + used) :: ns, ?_, hinv', ?_, ?_, ?_, ?_,
        ?_, hcn'.trans hcn1, hp'.trans hp1, hsz'.trans hsz1, hos'.trans hos1,
        fun i => (hm' i).trans (hm1 i)⟩
      · show populateLoop objinit buf size objsz (k+1) used st = _
        simp only [populateLoop]
        rw [if_pos hle, hrc (buf + used)]
        simp only [ne_eq, not_true_eq_false, if_false, ite_false]
        rw [hadd]
        simp only []
        rw [hrun]
        have harith : used + objsz + objsz * ns.length =
            used + objsz * (((buf + used) :: ns).length) := by
          rw [List.length_cons]
          ring
        rw [harith]
      · exact (hperm'.trans (List.Perm.append_left ns hperm1)).trans List.perm_middle
      · rw [List.nodup_cons]
        exact ⟨hanotin, hnd'⟩
      · intro a ha
        rw [List.mem_cons] at ha
        rcases ha with he | ha
        · omega
        · have := hbnd' a ha
          omega
      · intro _ _
        simp
      · rw [hnob', hnob1, List.length_cons]
        omega
    · refine ⟨st, ls, [], ?_, hinv, by simp, by simp, by simp, by omega,
        rfl, rfl, rfl, rfl, rfl, fun _ => rfl⟩
      simp only [populateLoop]
      rw [if_neg hle]
      simp

/-- Success and shape of `freelist_populate` on a pool without an
attached buffer: the buffer is carved into at least one fresh node, the
invariant is preserved, and the pool window is recorded. -/
theorem freelist_populate_builds {st : FreelistHead} {ls : List (List Nat)}
    (buf size objsz : Nat) (objinit : Option (Nat → Int))
    (hinv : poolInv st ls) (hn0 : 0 < st.fh_ncpus)
    (hrc : ∀ a, objinitRC objinit a = 0)
    (hpool0 : st.fh_pool = 0) (hbuf : buf ≠ 0) (ho : 0 < objsz)
    (hsz : objsz ≤ size) (hobjsz : st.fh_objsz = 0 ∨ st.fh_objsz = objsz)
    (hfresh : ∀ a, buf ≤ a → a < buf + size → a ∉ ls.flatten) :
    ∃ st' ls' ns,
      freelist_populate st buf size objsz objinit = (st', 0) ∧
      poolInv st' ls' ∧ ls'.flatten.Perm (ns ++ ls.flatten) ∧
      ns ≠ [] ∧ ns.Nodup ∧ (∀ a ∈ ns, buf ≤ a ∧ a < buf + size) ∧
      st'.fh_nobjs = st.fh_nobjs + ns.length ∧
      st'.fh_pool = buf ∧ st'.fh_sz_pool = size ∧ st'.fh_objsz = objsz ∧
      st'.fh_ncpus = st.fh_ncpus ∧ (∀ i, slotMeta st' i = slotMeta st i) := by
  obtain ⟨st1, ls1, ns, hrun, hinv1, hperm1, hnd1, hbnd1, hne1, hnob1, hcn1,
    hp1, hsz1, hos1, hm1⟩ :=
    populateLoop_spec objinit buf size objsz hrc ho (size + 1) 0 st ls hinv hn0
      (by intro a h1 h2; exact hfresh a (by omega) h2)
  have hns : ns ≠ [] := hne1 (by omega) (by omega)
  have hlen0 : 0 < ns.length := List.length_pos.mpr hns
  set st2 : FreelistHead :=
    { st1 with fh_pool := buf, fh_sz_pool := size, fh_objsz := objsz } with hst2
  have hout : freelist_populate st buf size objsz objinit = (st2, 0) := by
    unfold freelist_populate
    rw [if_neg (by
      push_neg
      refine ⟨hpool0, hbuf, by omega, by omega⟩)]
    rw [if_neg (by
      rcases hobjsz with h | h <;> simp [h])]
    rw [hrun]
    have hused : 0 + objsz * ns.length ≠ 0 := by
      have := Nat.mul_pos ho hlen0
      omega
    simp [hused]
    exact ⟨by omega, hns⟩
  have hinv2 : poolInv st2 ls1 := by
    obtain ⟨hso, hlen, hcha, hnd, hrf⟩ := hinv1
    exact ⟨hso, hlen, hcha, hnd, hrf⟩
  refine ⟨st2, ls1, ns, hout, hinv2, hperm1, hns, hnd1,
    fun a ha => by have := hbnd1 a ha; omega, ?_, rfl, rfl, rfl,
    hcn1, fun i => hm1 i⟩
  show st1.fh_nobjs = st.fh_nobjs + ns.length
  exact hnob1

/-- A concrete sane allocator whose slot allocations are spaced far
apart, wide enough for the 1024-object / 64-byte / 4-slot scenario. -/
def exAllocBig : Allocator :=
  { arrayOk := true, ok := fun _ => true, base := fun i => 1 + 20000 * i }

/-- Claim C2: draining a pool by pop-until-empty returns exactly the
inserted nodes, each once.  (1) Any pool satisfying the chain invariant
drains, from any cpu, to a duplicate-free permutation of all chained
nodes.  (2) `freelist_init` builds such a pool holding exactly `nobjs`
nodes.  (3) `freelist_populate` extends such a pool by the nonzero batch
of nodes it carves.  (4) A batch of `freelist_add_scattered` calls
extends it by exactly the batch.  (5) In particular the scenario
`init(total_objects=1024, object_size=64, shard_count=4)` succeeds and a
full drain yields exactly 1024 distinct nodes. -/
theorem claim2_no_loss :
    (∀ (fuel cpu d : Nat) (st : FreelistHead) (ls : List (List Nat)),
      poolInv st ls → cpu < st.fh_ncpus → ls.flatten.length < d →
      ∃ st' L, drainPool (fuel+1) cpu d st = some (st', L) ∧
        L.Perm ls.flatten ∧ L.Nodup ∧ L.length = ls.flatten.length) ∧
    (∀ (ncpus nobjs objsz : Nat) (gfpAtomic : Bool) (al : Allocator)
      (objinit : Option (Nat → Int)) (h0 : Heap),
      0 < ncpus → 0 < alignPtr objsz → al.arrayOk = true →
      (∀ t, al.ok t = true) → initSep al nobjs (alignPtr objsz) ncpus →
      (∀ a, objinitRC objinit a = 0) →
      ∃ st ls, freelist_init ncpus nobjs objsz gfpAtomic al objinit h0 = (st, 0) ∧
        poolInv st ls ∧ ls.flatten.length = nobjs ∧ st.fh_nobjs = nobjs) ∧
    (∀ (st : FreelistHead) (ls : List (List Nat)) (buf size objsz : Nat)
      (objinit : Option (Nat → Int)),
      poolInv st ls → 0 < st.fh_ncpus → (∀ a, objinitRC objinit a = 0) →
      st.fh_pool = 0 → buf ≠ 0 → 0 < objsz → objsz ≤ size →
      (st.fh_objsz = 0 ∨ st.fh_objsz = objsz) →
      (∀ a, buf ≤ a → a < buf + size → a ∉ ls.flatten) →
      ∃ (st' : FreelistHead) (ls' : List (List Nat)) (ns : List Nat),
        freelist_populate st buf size objsz objinit = (st', 0) ∧
        poolInv st' ls' ∧ ns ≠ [] ∧
        ls'.flatten.length = ls.flatten.length + ns.length ∧
        st'.fh_nobjs = st.fh_nobjs + ns.length) ∧
    (∀ (R : List Nat) (st : FreelistHead) (ls : List (List Nat)),
      poolInv st ls → 0 < st.fh_ncpus → R.Nodup → (∀ r ∈ R, r ∉ ls.flatten) →
      ∃ ls', poolInv (addScatteredList R st) ls' ∧
        ls'.flatten.length = ls.flatten.length + R.length ∧
        (addScatteredList R st).fh_nobjs = st.fh_nobjs + R.length) ∧
    (∃ st st' L, freelist_init 4 1024 64 false exAllocBig none zeroHeap = (st, 0) ∧
      drainPool 1 0 1025 st = some (st', L) ∧ L.length = 1024 ∧ L.Nodup) := by
  have part1 : ∀ (fuel cpu d : Nat) (st : FreelistHead) (ls : List (List Nat)),
      poolInv st ls → cpu < st.fh_ncpus → ls.flatten.length < d →
      ∃ st' L, drainPool (fuel+1) cpu d st = some (st', L) ∧
        L.Perm ls.flatten ∧ L.Nodup ∧ L.length = ls.flatten.length := by
    intro fuel cpu d st ls hinv hcpu hlen
    obtain ⟨st', L, hrun, hperm⟩ := drainPool_spec fuel cpu d st ls hinv hcpu hlen
    exact ⟨st', L, hrun, hperm, hperm.symm.nodup hinv.2.2.2.1, hperm.length_eq⟩
  have part2 : ∀ (ncpus nobjs objsz : Nat) (gfpAtomic : Bool) (al : Allocator)
      (objinit : Option (Nat → Int)) (h0 : Heap),
      0 < ncpus → 0 < alignPtr objsz → al.arrayOk = true →
      (∀ t, al.ok t = true) → initSep al nobjs (alignPtr objsz) ncpus →
      (∀ a, objinitRC objinit a = 0) →
      ∃ st ls, freelist_init ncpus nobjs objsz gfpAtomic al objinit h0 = (st, 0) ∧
        poolInv st ls ∧ ls.flatten.length = nobjs ∧ st.fh_nobjs = nobjs := by
    intro ncpus nobjs objsz gfpAtomic al objinit h0 hn ho harr hok hsep hrc
    obtain ⟨st, hout, hinv, hlen, hnob, _⟩ :=
      freelist_init_builds ncpus nobjs objsz gfpAtomic al objinit h0
        hn ho harr hok hsep hrc
    exact ⟨st, initChains al nobjs (alignPtr objsz) ncpus, hout, hinv, hlen, hnob⟩
  refine ⟨part1, part2, ?_, ?_, ?_⟩
  · intro st ls buf size objsz objinit hinv hn0 hrc hpool0 hbuf ho hsz hobjsz hfresh
    obtain ⟨st', ls', ns, hout, hinv', hperm, hns, _, _, hnob, _⟩ :=
      freelist_populate_builds buf size objsz objinit hinv hn0 hrc hpool0 hbuf
        ho hsz hobjsz hfresh
    refine ⟨st', ls', ns, hout, hinv', hns, ?_, hnob⟩
    rw [hperm.length_eq, List.length_append]
    omega
  · intro R st ls hinv hn0 hnd hfresh
    obtain ⟨st', ls', hrun, hinv', hperm, hnob, _⟩ :=
      addScatteredList_inv R st ls hinv hn0 hnd hfresh
    rw [hrun]
    refine ⟨ls', hinv', ?_, hnob⟩
    rw [hperm.length_eq, List.length_append]
    omega
  · obtain ⟨st, ls, hout, hinv, hlen, _⟩ :=
      part2 4 1024 64 false exAllocBig none zeroHeap (by omega) (by decide)
        rfl (fun _ => rfl) (by decide) (fun _ => rfl)
    have hlsne : ls.length ≠ 0 := by
      intro h
      rw [List.length_eq_zero] at h
      subst h
      simp at hlen
    have hpos : 0 < st.fh_ncpus := by
      have := hinv.2.1
      omega
    obtain ⟨st', L, hrun, _, hndL, hlenL⟩ :=
      part1 0 0 1025 st ls hinv (by omega) (by omega)
    exact ⟨st, st', L, hout, hrun, by omega, hndL⟩

/-- Concrete drain of a pool with two empty shards: pop-until-empty
returns the empty batch, matching the zero nodes ever inserted. -/
theorem claim2_no_loss_witness :
    ∃ st' L, drainPool 1 0 1 exPool2 = some (st', L) ∧
      L.Perm ([[], []] : List (List Nat)).flatten ∧ L.Nodup ∧
      L.length = ([[], []] : List (List Nat)).flatten.length :=
  claim2_no_loss.1 0 0 1 exPool2 [[], []] (by decide) (by decide) (by decide)

/-! Claim C5: how an init-callback error reaches the caller of init. -/

/-- A per-node init callback that always fails with the error `-5`
(`-EIO`; any nonzero value would do). -/
def exFailCb : Option (Nat → Int) := some (fun _ => -5)

/-- The callback error `-5` is not propagated verbatim by `freelist_init`:
the caller receives `-12` (`-ENOMEM`), the same value used for allocation
failure. -/
theorem claim5_counterexample :
    (freelist_init 1 1 8 false exAlloc exFailCb zeroHeap).2 = -12 ∧
    ((-12 : Int) ≠ -5) := by
  constructor
  · rfl
  · decide

/-- Claim C5 as the code has it: whatever `__freelist_init_slots` reports
— an allocation failure or a nonzero init-callback error — `freelist_init`
returns either success or `-ENOMEM`; a callback error is collapsed to
`-12` rather than propagated verbatim. -/
theorem claim5_init_error_collapsed (ncpus nobjs objsz : Nat) (gfpAtomic : Bool)
    (al : Allocator) (objinit : Option (Nat → Int)) (h0 : Heap) :
    (freelist_init ncpus nobjs objsz gfpAtomic al objinit h0).2 = 0 ∨
    (freelist_init ncpus nobjs objsz gfpAtomic al objinit h0).2 = -12 := by
  unfold freelist_init
  dsimp only
  split
  · right; rfl
  · left; rfl

/-! Claim C6: the exact InvalidArgument conditions of populate. -/

/-- With a never-failing callback the carving loop reports no error and
never decreases the byte count consumed so far. -/
theorem populateLoop_clean (objinit : Option (Nat → Int))
    (hrc : ∀ a, objinitRC objinit a = 0) (buf size objsz : Nat) :
    ∀ (k used : Nat) (st : FreelistHead),
    (populateLoop objinit buf size objsz k used st).2.2 = 0 ∧
    used ≤ (populateLoop objinit buf size objsz k used st).2.1 := by
  intro k
  induction k with
  | zero => intro used st; exact ⟨rfl, le_refl _⟩
  | succ k ih =>
    intro used st
    simp only [populateLoop]
    by_cases hle : used + objsz ≤ size
    · rw [if_pos hle, hrc (buf + used)]
      simp only [ne_eq, not_true_eq_false, if_false, ite_false]
      obtain ⟨h1, h2⟩ := ih (used + objsz) _
      exact ⟨h1, by omega⟩
    · rw [if_neg hle]
      exact ⟨rfl, le_refl _⟩

/-- A pointer-misaligned object size (12 is not a multiple of 8) does not
make populate fail: on a fresh pool it returns success, contradicting the
claim that misalignment yields InvalidArgument. -/
theorem claim6_counterexample :
    (freelist_populate exPool0 16 24 12 none).2 = 0 ∧ (12 % 8 ≠ 0) := by
  constructor
  · rfl
  · decide

/-- Claim C6 as the code has it: populate (with a never-failing callback)
returns `-EINVAL` exactly when a buffer was already attached, or the
buffer is NULL, or the object size is zero, or the buffer is smaller than
one object, or the object size mismatches a previously fixed nonzero
size; alignment of the buffer or object size is only WARNed about, never
an error.  In every such case the pool is returned unchanged with no
element inserted. -/
theorem claim6_populate_einval (st : FreelistHead) (buf size objsz : Nat)
    (objinit : Option (Nat → Int)) (hrc : ∀ a, objinitRC objinit a = 0) :
    ((freelist_populate st buf size objsz objinit).2 = -22 ↔
      st.fh_pool ≠ 0 ∨ buf = 0 ∨ objsz = 0 ∨ size < objsz ∨
        (st.fh_objsz ≠ 0 ∧ st.fh_objsz ≠ objsz)) ∧
    ((st.fh_pool ≠ 0 ∨ buf = 0 ∨ objsz = 0 ∨ size < objsz ∨
        (st.fh_objsz ≠ 0 ∧ st.fh_objsz ≠ objsz)) →
      freelist_populate st buf size objsz objinit = (st, -22)) := by
  have himp : (st.fh_pool ≠ 0 ∨ buf = 0 ∨ objsz = 0 ∨ size < objsz ∨
      (st.fh_objsz ≠ 0 ∧ st.fh_objsz ≠ objsz)) →
      freelist_populate st buf size objsz objinit = (st, -22) := by
    intro hc
    unfold freelist_populate
    by_cases h1 : st.fh_pool ≠ 0 ∨ buf = 0 ∨ objsz = 0 ∨ size < objsz
    · rw [if_pos h1]
    · rw [if_neg h1]
      have h2 : st.fh_objsz ≠ 0 ∧ st.fh_objsz ≠ objsz := by tauto
      rw [if_pos h2]
  refine ⟨⟨?_, fun hc => by rw [himp hc]⟩, himp⟩
  intro hres
  by_contra hc
  push_neg at hc
  obtain ⟨hp, hb, ho, hs, hos⟩ := hc
  unfold freelist_populate at hres
  rw [if_neg (by push_neg; exact ⟨hp, hb, ho, hs⟩)] at hres
  rw [if_neg (by tauto)] at hres
  dsimp only at hres
  have hstep : populateLoop objinit buf size objsz (size+1) 0 st =
      populateLoop objinit buf size objsz size (0 + objsz)
        ((freelist_add_scattered (buf + 0) st).1) := by
    simp only [populateLoop]
    rw [if_pos (by omega), hrc (buf + 0)]
    simp only [ne_eq, not_true_eq_false, if_false, ite_false]
  rw [hstep] at hres
  obtain ⟨hrc0, hmono⟩ := populateLoop_clean objinit hrc buf size objsz size
    (0 + objsz) ((freelist_add_scattered (buf + 0) st).1)
  rw [hrc0] at hres
  rw [if_neg (by simp)] at hres
  have hpos : (populateLoop objinit buf size objsz size (0 + objsz)
      ((freelist_add_scattered (buf + 0) st).1)).2.1 ≠ 0 := by omega
  rw [if_neg hpos] at hres
  have hzero : (0 : Int) = -22 := hres
  norm_num at hzero

/-- Concrete instance of the corrected InvalidArgument condition: on a
fresh pool a well-formed populate call is not `-EINVAL`, and none of the
error conditions hold. -/
theorem claim6_populate_einval_witness :
    (((freelist_populate exPool0 16 24 8 none).2 = -22 ↔
      exPool0.fh_pool ≠ 0 ∨ (16 : Nat) = 0 ∨ (8 : Nat) = 0 ∨ (24 : Nat) < 8 ∨
        (exPool0.fh_objsz ≠ 0 ∧ exPool0.fh_objsz ≠ 8)) ∧
     ((exPool0.fh_pool ≠ 0 ∨ (16 : Nat) = 0 ∨ (8 : Nat) = 0 ∨ (24 : Nat) < 8 ∨
        (exPool0.fh_objsz ≠ 0 ∧ exPool0.fh_objsz ≠ 8)) →
      freelist_populate exPool0 16 24 8 none = (exPool0, -22))) :=
  claim6_populate_einval exPool0 16 24 8 none (fun _ => rfl)

/-! Claim C10: finalize is idempotent — a second fini is a no-op. -/

/-- `__freelist_fini_slots` always leaves the slot-array pointer NULL. -/
theorem fini_slots_clears (s : FreelistHead) :
    (freelist_fini_slots s).fh_slots = none := by
  unfold freelist_fini_slots
  cases hs : s.fh_slots <;> simp [hs]

/-- Claim C10: whatever a terminating `freelist_fini` run produces, the
slot-array pointer of the result is NULL, and every subsequent fini call
on that result — any fuel, with or without a release callback — returns
immediately with the state unchanged and no release-callback
invocation. -/
theorem claim10_double_fini (fuelPop d : Nat) (st : FreelistHead) (hasRelease : Bool)
    (st' : FreelistHead) (calls : List RelCall)
    (h : freelist_fini fuelPop d st hasRelease = some (st', calls)) :
    st'.fh_slots = none ∧
    ∀ (fp2 d2 : Nat) (hr2 : Bool), freelist_fini fp2 d2 st' hr2 = some (st', []) := by
  have hfin : ∀ s : FreelistHead, s.fh_slots = none →
      ∀ (fp2 d2 : Nat) (hr2 : Bool), freelist_fini fp2 d2 s hr2 = some (s, []) := by
    intro s hs fp2 d2 hr2
    unfold freelist_fini
    rw [hs]
  have hslots : st'.fh_slots = none := by
    unfold freelist_fini at h
    cases hsl : st.fh_slots with
    | none =>
      rw [hsl] at h
      have h2 := Option.some.inj h
      have h3 : st' = st := (congrArg Prod.fst h2).symm
      rw [h3, hsl]
    | some sl =>
      rw [hsl] at h
      dsimp only at h
      cases hr1 : (if hasRelease then finiLoop fuelPop d st.fh_ncpus 0 st
          else some (st, [])) with
      | none =>
        rw [hr1] at h
        exact absurd h (by simp)
      | some p =>
        obtain ⟨st1, cs⟩ := p
        rw [hr1] at h
        dsimp only at h
        have h2 := Option.some.inj h
        have h3 : st' = freelist_fini_slots
            (if st1.fh_pool ≠ 0 ∧ hasRelease = true then
              ({ st1 with fh_pool := 0, fh_sz_pool := 0 },
               cs ++ [{ obj := st1.fh_pool, user := true, elem := false }])
             else (st1, cs)).1 := (congrArg Prod.fst h2).symm
        rw [h3]
        exact fini_slots_clears _
  exact ⟨hslots, hfin st' hslots⟩

/-- A first fini of a live pool clears the slot array, and a second fini
(here with a release callback attached) returns at once with no
release-callback invocation. -/
theorem claim10_double_fini_witness :
    (freelist_fini_slots exPool0).fh_slots = none ∧
    freelist_fini 1 1 (freelist_fini_slots exPool0) true =
      some (freelist_fini_slots exPool0, []) :=
  ⟨(claim10_double_fini 1 1 exPool0 false (freelist_fini_slots exPool0) [] rfl).1,
   (claim10_double_fini 1 1 exPool0 false (freelist_fini_slots exPool0) [] rfl).2
     1 1 true⟩

/-! Claim C7: the `user` argument of the release callback in fini. -/

theorem list_any_congr {α : Type} {l : List α} {p q : α → Bool}
    (h : ∀ a ∈ l, p a = q a) : l.any p = l.any q := by
  induction l with
  | nil => rfl
  | cons a l ih =>
    simp only [List.any_cons, h a (by simp),
      ih (fun b hb => h b (by simp [hb]))]

/-- `freelist_is_inpool` reads only the user-pool window. -/
theorem inpool_congr {st st' : FreelistHead} (hp : st'.fh_pool = st.fh_pool)
    (hs : st'.fh_sz_pool = st.fh_sz_pool) (obj : Nat) :
    freelist_is_inpool obj st' = freelist_is_inpool obj st := by
  unfold freelist_is_inpool
  rw [hp, hs]

/-- `freelist_is_inslot` reads only the slot count and the base/size of
each slot allocation. -/
theorem inslot_congr {st st' : FreelistHead} (hc : st'.fh_ncpus = st.fh_ncpus)
    (hm : ∀ i, slotMeta st' i = slotMeta st i) (obj : Nat) :
    freelist_is_inslot obj st' = freelist_is_inslot obj st := by
  unfold freelist_is_inslot
  rw [hc]
  apply list_any_congr
  intro i _
  have h := hm i
  unfold slotMeta at h
  cases h1 : (st'.fh_slots.getD []).getD i none with
  | none =>
    cases h2 : (st.fh_slots.getD []).getD i none with
    | none => rfl
    | some fs => rw [h1, h2] at h; simp at h
  | some fs' =>
    cases h2 : (st.fh_slots.getD []).getD i none with
    | none => rw [h1, h2] at h; simp at h
    | some fs =>
      rw [h1, h2] at h
      simp only [Option.some.injEq, Prod.mk.injEq] at h
      dsimp only
      rw [h.1, h.2]

/-- An address outside every slot allocation is not `inslot`. -/
theorem inslot_false_of_outside {st : FreelistHead} {a : Nat}
    (h : ∀ t, t < st.fh_ncpus → ∀ b s, slotMeta st t = some (b, s) →
      ¬ (b ≤ a ∧ a < b + s)) :
    freelist_is_inslot a st = false := by
  unfold freelist_is_inslot
  rw [List.any_eq_false]
  intro i hi
  rw [List.mem_range] at hi
  cases hm : (st.fh_slots.getD []).getD i none with
  | none => simp
  | some fs =>
    have hout := h i hi fs.addr fs.size (by unfold slotMeta; rw [hm])
    simp only [decide_eq_true_eq]
    intro hc
    exact hout ⟨hc.2.1, hc.2.2⟩

/-- A valid slot array has a non-NULL entry at every index below the
slot count. -/
theorem entry_isSome_of_slotsOK {st : FreelistHead} (hso : slotsOK st = true)
    {i : Nat} (hi : i < st.fh_ncpus) :
    ∃ fs, (st.fh_slots.getD []).getD i none = some fs := by
  have h := slotsOK_entryOK hso hi
  unfold entryOK at h
  cases hs : st.fh_slots with
  | none => rw [hs] at h; simp at h
  | some sl =>
    rw [hs] at h
    simp only [Bool.and_eq_true, decide_eq_true_eq] at h
    obtain ⟨-, h2⟩ := h
    rw [Option.isSome_iff_exists] at h2
    obtain ⟨fs, hfs⟩ := h2
    exact ⟨fs, hfs⟩

theorem length_le_flatten {ls : List (List Nat)} {l : List Nat} (h : l ∈ ls) :
    l.length ≤ ls.flatten.length := by
  induction ls with
  | nil => simp at h
  | cons a ls ih =>
    rw [List.flatten_cons, List.length_append]
    rcases List.mem_cons.mp h with he | hm
    · subst he; omega
    · have := ih hm; omega

/-- A duplicate-free list of naturals inside a window of `n` addresses
has at most `n` entries. -/
theorem nodup_bounded_length {l : List Nat} {lo n : Nat} (hnd : l.Nodup)
    (hb : ∀ a ∈ l, lo ≤ a ∧ a < lo + n) : l.length ≤ n := by
  classical
  have hsub : l.toFinset ⊆ Finset.Ico lo (lo + n) := by
    intro a ha
    rw [List.mem_toFinset] at ha
    rw [Finset.mem_Ico]
    exact hb a ha
  have hcard := Finset.card_le_card hsub
  rw [List.toFinset_card_of_nodup hnd, Nat.card_Ico] at hcard
  omega

/-- The do-while drain of one slot in fini empties that slot's chain,
emitting one element release-call per chained node, in chain order, with
the `user` flag computed as the conjunction of \"not in the user pool
window\" and \"not in any slot allocation\". -/
theorem finiDrainSlot_spec (fuel i : Nat) :
    ∀ (d : Nat) (st : FreelistHead) (ls : List (List Nat)),
    poolInv st ls → i < st.fh_ncpus → (ls.getD i []).length < d →
    ∃ st', finiDrainSlot (fuel+1) i d st = some (st',
        (ls.getD i []).map (fun n =>
          ({ obj := n,
             user := !(freelist_is_inpool n st) && !(freelist_is_inslot n st),
             elem := true } : RelCall))) ∧
      poolInv st' (ls.set i []) ∧ sameMeta st st' := by
  intro d
  induction d with
  | zero => intro st ls _ _ h; omega
  | succ d ih =>
    intro st ls hinv hi hlen
    have hlt : i < ls.length := by rw [hinv.2.1]; exact hi
    cases hch : ls.getD i [] with
    | nil =>
      have hh : st.slotHead i = none := (poolInv_head_none_iff hinv hi).mpr hch
      have hps : popSlot (fuel+1) (st.slotState i) = (st.slotState i, some none) :=
        popSlot_empty fuel (st.slotState i) hh
      have hrun : finiDrainSlot (fuel+1) i (d+1) st =
          some (st.putSlot i (st.slotState i), []) := by
        unfold finiDrainSlot
        rw [hps]
      have hset : ls.set i [] = ls := by
        have h2 := set_getD_self ls i [] hlt
        rw [hch] at h2
        exact h2
      refine ⟨st.putSlot i (st.slotState i), ?_, ?_, putSlot_sameMeta st i _⟩
      · rw [hrun]
        rfl
      · rw [hset]
        exact popStep_empty hinv hi
    | cons n rest =>
      obtain ⟨hinv1, hhead, hrefs⟩ := poolInv_after_pop hinv hi hch
      have hps := popSlot_pop' fuel st i n hhead hrefs
      have hmeta1 : sameMeta st (st.putSlot i (popResultSlot st n)) :=
        putSlot_sameMeta st i _
      have hlen1 : ((ls.set i rest).getD i []).length < d := by
        rw [getD_set_self rest [] hlt]
        rw [hch] at hlen
        simp at hlen
        omega
      obtain ⟨st2, hrun2, hinv2, hmeta2⟩ :=
        ih (st.putSlot i (popResultSlot st n)) (ls.set i rest) hinv1
          (by rw [hmeta1.1]; exact hi) hlen1
      have hcall : ∀ m : Nat,
          ({ obj := m,
             user := !(freelist_is_inpool m (st.putSlot i (popResultSlot st n))) &&
               !(freelist_is_inslot m (st.putSlot i (popResultSlot st n))),
             elem := true } : RelCall) =
          { obj := m,
            user := !(freelist_is_inpool m st) && !(freelist_is_inslot m st),
            elem := true } := by
        intro m
        rw [inpool_congr hmeta1.2.2.1 hmeta1.2.2.2.1 m,
            inslot_congr hmeta1.1 hmeta1.2.2.2.2.2.1 m]
      have hset2 : (ls.set i rest).set i [] = ls.set i [] := List.set_set _ _ _ _
      refine ⟨st2, ?_, by rw [hset2] at hinv2; exact hinv2,
        sameMeta_trans hmeta1 hmeta2⟩
      show finiDrainSlot (fuel+1) i (d+1) st = _
      unfold finiDrainSlot
      rw [hps]
      dsimp only
      rw [hrun2]
      dsimp only
      simp only [List.map_cons]
      rw [hcall n]
      have hmap : (((ls.set i rest).getD i []).map (fun m =>
          ({ obj := m,
             user := !(freelist_is_inpool m (st.putSlot i (popResultSlot st n))) &&
               !(freelist_is_inslot m (st.putSlot i (popResultSlot st n))),
             elem := true } : RelCall))) =
          rest.map (fun m =>
          ({ obj := m,
             user := !(freelist_is_inpool m st) && !(freelist_is_inslot m st),
             elem := true } : RelCall)) := by
        rw [getD_set_self rest [] hlt]
        exact List.map_congr_left (fun m _ => hcall m)
      rw [hmap]

/-- The per-slot loop of fini over slots `i, i+1, ..., fh_ncpus - 1`:
every slot is drained in turn, concatenating the per-slot element
release-calls in slot order. -/
theorem finiLoop_spec (fuel d : Nat) :
    ∀ (k i : Nat) (st : FreelistHead) (ls : List (List Nat)),
    poolInv st ls → i + k = st.fh_ncpus →
    (∀ j, j < ls.length → (ls.getD j []).length < d) →
    ∃ st' ls', finiLoop (fuel+1) d k i st = some (st',
        ((List.range' i k).map (fun j => (ls.getD j []).map (fun n =>
          ({ obj := n,
             user := !(freelist_is_inpool n st) && !(freelist_is_inslot n st),
             elem := true } : RelCall)))).flatten) ∧
      poolInv st' ls' ∧ sameMeta st st' := by
  intro k
  induction k with
  | zero =>
    intro i st ls hinv _ _
    exact ⟨st, ls, rfl, hinv, sameMeta_refl st⟩
  | succ k ih =>
    intro i st ls hinv hik hbound
    have hi : i < st.fh_ncpus := by omega
    obtain ⟨fs, hfs⟩ := entry_isSome_of_slotsOK hinv.1 hi
    have hlt : i < ls.length := by rw [hinv.2.1]; exact hi
    obtain ⟨st1, hrun1, hinv1, hmeta1⟩ :=
      finiDrainSlot_spec fuel i d st ls hinv hi (hbound i hlt)
    have hbound1 : ∀ j, j < (ls.set i []).length →
        ((ls.set i []).getD j []).length < d := by
      intro j hj
      rw [List.length_set] at hj
      by_cases hij : j = i
      · subst hij
        rw [getD_set_self [] [] hlt]
        have hd := hbound j hj
        simp only [List.length_nil]
        omega
      · rw [getD_set_ne' [] [] hij]
        exact hbound j hj
    obtain ⟨st2, ls2, hrun2, hinv2, hmeta2⟩ :=
      ih (i+1) st1 (ls.set i []) hinv1 (by rw [hmeta1.1]; omega) hbound1
    have hcall : ∀ m : Nat,
        ({ obj := m,
           user := !(freelist_is_inpool m st1) && !(freelist_is_inslot m st1),
           elem := true } : RelCall) =
        { obj := m,
          user := !(freelist_is_inpool m st) && !(freelist_is_inslot m st),
          elem := true } := by
      intro m
      rw [inpool_congr hmeta1.2.2.1 hmeta1.2.2.2.1 m,
          inslot_congr hmeta1.1 hmeta1.2.2.2.2.2.1 m]
    have hmap2 : ((List.range' (i+1) k).map (fun j =>
        ((ls.set i []).getD j []).map (fun m =>
        ({ obj := m,
           user := !(freelist_is_inpool m st1) && !(freelist_is_inslot m st1),
           elem := true } : RelCall)))) =
        (List.range' (i+1) k).map (fun j => (ls.getD j []).map (fun m =>
        ({ obj := m,
           user := !(freelist_is_inpool m st) && !(freelist_is_inslot m st),
           elem := true } : RelCall))) := by
      apply List.map_congr_left
      intro j hj
      rw [List.mem_range'_1] at hj
      rw [getD_set_ne' [] [] (show j ≠ i by omega)]
      exact List.map_congr_left (fun m _ => hcall m)
    refine ⟨st2, ls2, ?_, hinv2, sameMeta_trans hmeta1 hmeta2⟩
    show finiLoop (fuel+1) d (k+1) i st = _
    unfold finiLoop
    rw [hfs]
    dsimp only
    rw [hrun1]
    dsimp only
    rw [hrun2]
    dsimp only
    rw [List.range'_succ, List.map_cons, List.flatten_cons, ← hmap2]

/-- The release-call trace of a terminating `freelist_fini` with a
release callback: one element call per chained node in slot order, the
`user` flag computed from the pool window and the slot allocations, then
one buffer call `(fh_pool, user := true, elem := false)` when a user
buffer is attached. -/
theorem freelist_fini_calls (fuel d : Nat) (st : FreelistHead)
    (ls : List (List Nat)) (hinv : poolInv st ls)
    (hbound : ∀ j, j < ls.length → (ls.getD j []).length < d) :
    ∃ st', freelist_fini (fuel+1) d st true = some (st',
      (((List.range' 0 st.fh_ncpus).map (fun j => (ls.getD j []).map (fun n =>
        ({ obj := n,
           user := !(freelist_is_inpool n st) && !(freelist_is_inslot n st),
           elem := true } : RelCall)))).flatten) ++
      (if st.fh_pool ≠ 0 then
        [({ obj := st.fh_pool, user := true, elem := false } : RelCall)]
       else [])) := by
  obtain ⟨st1, ls1, hrun1, hinv1, hmeta1⟩ :=
    finiLoop_spec fuel d st.fh_ncpus 0 st ls hinv (by omega) hbound
  have hp1 : st1.fh_pool = st.fh_pool := hmeta1.2.2.1
  have hslE : ∃ sl, st.fh_slots = some sl := by
    have h := hinv.1
    unfold slotsOK at h
    cases hs : st.fh_slots with
    | none => rw [hs] at h; simp at h
    | some sl => exact ⟨sl, rfl⟩
  obtain ⟨sl, hsl⟩ := hslE
  by_cases hp : st.fh_pool ≠ 0
  · refine ⟨freelist_fini_slots { st1 with fh_pool := 0, fh_sz_pool := 0 }, ?_⟩
    unfold freelist_fini
    rw [hsl]
    dsimp only
    rw [if_pos rfl]
    rw [hrun1]
    dsimp only
    rw [if_pos (show st1.fh_pool ≠ 0 ∧ (true : Bool) = true from
      ⟨by rw [hp1]; exact hp, rfl⟩)]
    rw [if_pos hp]
    dsimp only
    rw [hp1]
  · refine ⟨freelist_fini_slots st1, ?_⟩
    unfold freelist_fini
    rw [hsl]
    dsimp only
    rw [if_pos rfl]
    rw [hrun1]
    dsimp only
    rw [if_neg (show ¬ (st1.fh_pool ≠ 0 ∧ (true : Bool) = true) from
      fun hc => hp (hp1 ▸ hc.1))]
    rw [if_neg hp]
    rw [List.append_nil]

/-- A pool whose buffer was attached by populate releases every carved
element with `user := false` (the element lies inside the pool window,
so `!is_inpool && !is_inslot` is false): node 24 entered the pool via
populate of the buffer at 16, yet its release call carries
`user := false`; only the whole-buffer call carries `user := true`. -/
theorem claim7_counterexample :
    ∃ st', freelist_fini 1 3 (freelist_populate exPool0 16 16 8 none).1 true =
      some (st', [{ obj := 24, user := false, elem := true },
                  { obj := 16, user := false, elem := true },
                  { obj := 16, user := true, elem := false }]) :=
  ⟨_, rfl⟩

/-- Claim C7 (corrected): during finalize every drained object is passed
to the release callback with `user = !is_inpool && !is_inslot` evaluated
against the pool.  Hence (pipeline part) for a pool built by init,
extended by populate of a disjoint buffer and by a batch `R` of
scattered external objects, an element call carries `user = true` exactly
when the object came from `add_scattered` — objects carved by populate
lie inside the attached buffer window and are released with
`user = false`, the buffer being covered instead by the final
whole-buffer call `(fh_pool, user := true, elem := false)`. -/
theorem claim7_fini_user_flag :
    (∀ (fuel d : Nat) (st : FreelistHead) (ls : List (List Nat)),
      poolInv st ls → (∀ j, j < ls.length → (ls.getD j []).length < d) →
      ∃ st', freelist_fini (fuel+1) d st true = some (st',
        (((List.range' 0 st.fh_ncpus).map (fun j => (ls.getD j []).map (fun n =>
          ({ obj := n,
             user := !(freelist_is_inpool n st) && !(freelist_is_inslot n st),
             elem := true } : RelCall)))).flatten) ++
        (if st.fh_pool ≠ 0 then
          [({ obj := st.fh_pool, user := true, elem := false } : RelCall)]
         else []))) ∧
    (∀ (ncpus nobjs objsz : Nat) (gfpAtomic : Bool) (al : Allocator) (h0 : Heap)
       (buf size : Nat) (R : List Nat) (fuel d : Nat),
      0 < ncpus → 0 < objsz → al.arrayOk = true → (∀ t, al.ok t = true) →
      initSep al nobjs (alignPtr objsz) ncpus → buf ≠ 0 → objsz ≤ size →
      (∀ t, t < ncpus →
        al.base t + slotSize (alignPtr objsz) (slotCount nobjs ncpus t) ≤ buf ∨
        buf + size ≤ al.base t) →
      R.Nodup → (∀ r ∈ R, r < buf ∨ buf + size ≤ r) →
      (∀ r ∈ R, ∀ t, t < ncpus →
        ¬ (al.base t ≤ r ∧
           r < al.base t + slotSize (alignPtr objsz) (slotCount nobjs ncpus t))) →
      nobjs + size + R.length < d →
      ∃ st1 st2 st3 st' elemCalls,
        freelist_init ncpus nobjs objsz gfpAtomic al none h0 = (st1, 0) ∧
        freelist_populate st1 buf size objsz none = (st2, 0) ∧
        addScatteredList R st2 = st3 ∧
        freelist_fini (fuel+1) d st3 true = some (st',
          elemCalls ++ [({ obj := buf, user := true, elem := false } : RelCall)]) ∧
        (∀ c ∈ elemCalls, c.elem = true ∧ (c.user = true ↔ c.obj ∈ R))) := by
  constructor
  · intro fuel d st ls hinv hbound
    exact freelist_fini_calls fuel d st ls hinv hbound
  · intro ncpus nobjs objsz gfpAtomic al h0 buf size R fuel d
      hn ho harr hokal hsep hbuf hszle hdisj hR1 hR2 hR3 hd
    have ho8 : 1 ≤ (objsz + 7) / 8 :=
      (Nat.le_div_iff_mul_le (by omega)).mpr (by omega)
    have ho9 : 8 ≤ ((objsz + 7) / 8) * 8 := by
      calc 8 = 1 * 8 := by ring
        _ ≤ ((objsz + 7) / 8) * 8 := Nat.mul_le_mul_right 8 ho8
    have ho' : 0 < alignPtr objsz := by
      unfold alignPtr
      omega
    have hrc : ∀ a, objinitRC (none : Option (Nat → Int)) a = 0 := fun _ => rfl
    obtain ⟨st1, hinit, hinv1, hflat1, hnob1, hcn1, hpool1, hszp1, hobjsz1,
      hinslot1, hmeta1, hbounds1⟩ :=
      freelist_init_builds ncpus nobjs objsz gfpAtomic al none h0 hn ho' harr
        hokal hsep hrc
    set ls1 := initChains al nobjs (alignPtr objsz) ncpus with hls1
    have hfresh : ∀ a, buf ≤ a → a < buf + size → a ∉ ls1.flatten := by
      intro a h1 h2 hmem
      obtain ⟨t, ht, hb1, hb2⟩ := hbounds1 a hmem
      rcases hdisj t ht with hcase | hcase <;> omega
    obtain ⟨st2, ls2, ns, hpop, hinv2, hperm2, hns, hndns, hbndns, hnob2,
      hp2, hs2, ho2, hcn2, hm2⟩ :=
      freelist_populate_builds buf size objsz none hinv1
        (by rw [hcn1]; exact hn) hrc hpool1 hbuf ho hszle (Or.inr hobjsz1) hfresh
    have hRfresh : ∀ r ∈ R, r ∉ ls2.flatten := by
      intro r hr hmem
      have h2 := hperm2.subset hmem
      rw [List.mem_append] at h2
      rcases h2 with hin | hin
      · have := hbndns r hin
        rcases hR2 r hr with h | h <;> omega
      · obtain ⟨t, ht, hb1, hb2⟩ := hbounds1 r hin
        exact hR3 r hr t ht ⟨hb1, hb2⟩
    obtain ⟨st3, ls3, hrun3, hinv3, hperm3, hnob3, hcn3, hp3, hsz3, hos3, hm3⟩ :=
      addScatteredList_inv R st2 ls2 hinv2 (by rw [hcn2, hcn1]; exact hn) hR1 hRfresh
    have hpool3 : st3.fh_pool = buf := hp3.trans hp2
    have hszp3 : st3.fh_sz_pool = size := hsz3.trans hs2
    have hnsle : ns.length ≤ size := nodup_bounded_length hndns hbndns
    have hlen3 : ls3.flatten.length = R.length + (ns.length + nobjs) := by
      rw [hperm3.length_eq, List.length_append, hperm2.length_eq,
        List.length_append, hflat1]
    have hbound3 : ∀ j, j < ls3.length → (ls3.getD j []).length < d := by
      intro j hj
      have hmem := getD_mem ([] : List Nat) hj
      have hle := length_le_flatten hmem
      omega
    obtain ⟨st', hfini⟩ := freelist_fini_calls fuel d st3 ls3 hinv3 hbound3
    rw [hpool3, if_pos hbuf] at hfini
    refine ⟨st1, st2, st3, st', _, hinit, hpop, hrun3, hfini, ?_⟩
    intro c hc
    rw [List.mem_flatten] at hc
    obtain ⟨l, hl, hcl⟩ := hc
    rw [List.mem_map] at hl
    obtain ⟨j, hj, hlj⟩ := hl
    rw [List.mem_range'_1] at hj
    rw [← hlj] at hcl
    rw [List.mem_map] at hcl
    obtain ⟨n, hnmem, hcn⟩ := hcl
    subst hcn
    refine ⟨rfl, ?_⟩
    show (!(freelist_is_inpool n st3) && !(freelist_is_inslot n st3)) = true ↔
      n ∈ R
    have hjlt : j < ls3.length := by
      rw [hinv3.2.1]
      omega
    have hnfl : n ∈ ls3.flatten := mem_flatten_of_getD hjlt hnmem
    have hsplit := hperm3.subset hnfl
    rw [List.mem_append] at hsplit
    have hinpool_eq : freelist_is_inpool n st3 =
        decide (n ≠ 0 ∧ buf ≤ n ∧ n < buf + size) := by
      unfold freelist_is_inpool
      rw [hpool3, hszp3]
    have hinslot_eq : freelist_is_inslot n st3 = freelist_is_inslot n st1 :=
      inslot_congr (hcn3.trans hcn2) (fun i => (hm3 i).trans (hm2 i)) n
    rcases hsplit with hnR | hsplit2
    · have hio : freelist_is_inpool n st3 = false := by
        rw [hinpool_eq, decide_eq_false_iff_not]
        intro hcon
        rcases hR2 n hnR with h | h <;> omega
      have his : freelist_is_inslot n st1 = false := by
        apply inslot_false_of_outside
        intro t ht b s hmt hbs
        rw [hcn1] at ht
        have he := (hmeta1 t ht).symm.trans hmt
        simp only [Option.some.injEq, Prod.mk.injEq] at he
        obtain ⟨hbeq, hseq⟩ := he
        rw [← hbeq, ← hseq] at hbs
        exact hR3 n hnR t ht hbs
      rw [hio, hinslot_eq, his]
      simp [hnR]
    · have hsplit3 := hperm2.subset hsplit2
      rw [List.mem_append] at hsplit3
      rcases hsplit3 with hnsmem | hls1mem
      · have hbnd := hbndns n hnsmem
        have hio : freelist_is_inpool n st3 = true := by
          rw [hinpool_eq, decide_eq_true_eq]
          exact ⟨by omega, hbnd.1, hbnd.2⟩
        have hnR : n ∉ R := by
          intro hnr
          rcases hR2 n hnr with h | h <;> omega
        rw [hio]
        simp [hnR]
      · have his : freelist_is_inslot n st1 = true := hinslot1 n hls1mem
        have hnR : n ∉ R := by
          intro hnr
          obtain ⟨t, ht, hb1, hb2⟩ := hbounds1 n hls1mem
          exact hR3 n hnr t ht ⟨hb1, hb2⟩
        rw [hinslot_eq, his]
        simp [hnR]

/-- Concrete instance of the corrected fini trace on a pool with two
empty shards and no attached buffer: no release call at all. -/
theorem claim7_fini_user_flag_witness :
    ∃ st', freelist_fini (0+1) 1 exPool2 true = some (st',
      (((List.range' 0 exPool2.fh_ncpus).map (fun j =>
        (([[], []] : List (List Nat)).getD j []).map (fun n =>
          ({ obj := n,
             user := !(freelist_is_inpool n exPool2) &&
               !(freelist_is_inslot n exPool2),
             elem := true } : RelCall)))).flatten) ++
      (if exPool2.fh_pool ≠ 0 then
        [({ obj := exPool2.fh_pool, user := true, elem := false } : RelCall)]
       else [])) :=
  claim7_fini_user_flag.1 0 1 exPool2 [[], []] (by decide) (by decide)

end Freelist
